import Mathlib

/-!
Verification development for the Sudoku web game repository.

The development shallowly embeds the two cores of the repository:

* the puzzle generator / solver / validator
  (`src/sudo/lib/sudoku/types.ts` — `SudokuValidator`,
   `src/sudo/lib/socket/useSocket.ts` — `SudokuSolver`, `SudokuGenerator`);
* the multiplayer room state machine of the socket server
  (`src/socket-server/server.ts`).

Grids are lists of rows of naturals (`0` = empty cell), mirroring the
TypeScript `number[][]`.  In-place mutation of a grid is embedded by
explicit state passing: a TypeScript method that writes to its argument
becomes a Lean function that also returns the updated grid.  The
JavaScript `Math.random()` stream is embedded as an oracle `RNG : Nat → Nat`
from which each `Math.floor(Math.random() * n)` draw takes its head
modulo `n`; all theorems are quantified over the oracle.  Unbounded
recursion (the backtracking search and retry loops) is embedded with an
explicit fuel parameter; theorems that need the search to run to
completion carry a fuel-adequacy hypothesis which is discharged on
concrete inputs.

Caller contract from the specification: grid dimensions match the
configuration (`size × size`); out-of-range accesses are modelled with
`Option` so that a malformed grid can never be confused with an in-range
read.
-/

namespace SudokuRepo

/-- Difficulty levels (`src/sudo/lib/sudoku/types.ts`). -/
inductive Difficulty
  | easy
  | medium
  | hard
deriving DecidableEq, Repr

/-- Grid configuration (`src/sudo/lib/sudoku/types.ts`, interface `GridConfig`). -/
structure GridConfig where
  size : Nat
  boxRows : Nat
  boxCols : Nat
deriving DecidableEq, Repr

/-- `SudokuGrid = number[][]`: rows of cells, `0` = empty. -/
abbrev Grid := List (List Nat)

/-- Read `grid[r][c]`; `none` when the index pair is out of range. -/
def cellOf (g : Grid) (r c : Nat) : Option Nat :=
  (g[r]?).bind fun row => row[c]?

/-- Read `grid[r][c]` with default `0` (used where the caller contract
guarantees the access is in range). -/
def cellD (g : Grid) (r c : Nat) : Nat :=
  (cellOf g r c).getD 0

/-- Write `grid[r][c] = v` (out-of-range writes are no-ops, which the
caller contract rules out). -/
def setCell (g : Grid) (r c v : Nat) : Grid :=
  g.set r ((g.getD r []).set c v)

/-- The grid has `n` rows of `n` cells each (the caller contract of the
Validator: dimensions match the configuration). -/
def Shaped (n : Nat) (g : Grid) : Prop :=
  g.length = n ∧ ∀ row ∈ g, row.length = n

/-- `GridFactory.createGrid` (`src/sudo/lib/game/GridFactory.ts`): the
configurations the application constructs, by grid size; unsupported
sizes throw (here: `none`). -/
def createGrid (size : Nat) : Option GridConfig :=
  if size = 4 then some ⟨4, 2, 2⟩
  else if size = 6 then some ⟨6, 2, 3⟩
  else if size = 9 then some ⟨9, 3, 3⟩
  else if size = 12 then some ⟨12, 3, 4⟩
  else none

/-! ## Validator (`SudokuValidator`, `src/sudo/lib/sudoku/types.ts`) -/

/-- `hasNumberInRow`: scan `grid[row][0..size)` for `num`.  Note the scan
covers the whole row, including the queried cell itself. -/
def hasNumberInRow (cfg : GridConfig) (g : Grid) (row num : Nat) : Bool :=
  (List.range cfg.size).any fun col => cellOf g row col == some num

/-- `hasNumberInColumn`: scan `grid[0..size)[col]` for `num`. -/
def hasNumberInColumn (cfg : GridConfig) (g : Grid) (col num : Nat) : Bool :=
  (List.range cfg.size).any fun row => cellOf g row col == some num

/-- Box origin row used by `hasNumberInBox`:
`Math.floor(row / boxRows) * boxRows`. -/
def boxStartRow (cfg : GridConfig) (row : Nat) : Nat :=
  row / cfg.boxRows * cfg.boxRows

/-- Box origin column used by `hasNumberInBox`:
`Math.floor(col / boxCols) * boxCols`. -/
def boxStartCol (cfg : GridConfig) (col : Nat) : Nat :=
  col / cfg.boxCols * cfg.boxCols

/-- `hasNumberInBox`: scan the `boxRows × boxCols` box containing
`(row, col)` for `num`; again the scan includes the queried cell. -/
def hasNumberInBox (cfg : GridConfig) (g : Grid) (row col num : Nat) : Bool :=
  (List.range cfg.boxRows).any fun dr =>
    (List.range cfg.boxCols).any fun dc =>
      cellOf g (boxStartRow cfg row + dr) (boxStartCol cfg col + dc) == some num

/-- `isValidPlacement`: no occurrence of `num` in the row, the column, or
the box of `(row, col)` — the queried cell included. -/
def isValidPlacement (cfg : GridConfig) (g : Grid) (row col num : Nat) : Bool :=
  !hasNumberInRow cfg g row num &&
    (!hasNumberInColumn cfg g col num && !hasNumberInBox cfg g row col num)

/-- `findEmptyCell`: first `(row, col)` in row-major order with
`grid[row][col] === 0`, else `null`. -/
def findEmptyCell (cfg : GridConfig) (g : Grid) : Option (Nat × Nat) :=
  (List.range cfg.size).findSome? fun row =>
    ((List.range cfg.size).find? fun col => cellOf g row col == some 0).map
      fun col => (row, col)

/-- Row-major list of all `(row, col)` positions of the configured grid
(the iteration space of `isValidGrid`, `countEmptyCells` and of the
position list built by `createPuzzle`). -/
def allPositions (cfg : GridConfig) : List (Nat × Nat) :=
  (List.range cfg.size).flatMap fun r => (List.range cfg.size).map fun c => (r, c)

/-- One step of `isValidGrid` per position: read the cell, fail on `0`,
temporarily zero the cell, re-check `isValidPlacement`, restore the cell.
The grid is threaded to capture the in-place mutation. -/
def isValidGridGo (cfg : GridConfig) : List (Nat × Nat) → Grid → Bool × Grid
  | [], g => (true, g)
  | (r, c) :: rest, g =>
    let num := cellD g r c
    if num = 0 then (false, g)
    else
      let g1 := setCell g r c 0
      let ok := isValidPlacement cfg g1 r c num
      let g2 := setCell g1 r c num
      if ok then isValidGridGo cfg rest g2 else (false, g2)

/-- `isValidGrid` with the mutated grid returned alongside the result. -/
def isValidGridS (cfg : GridConfig) (g : Grid) : Bool × Grid :=
  isValidGridGo cfg (allPositions cfg) g

/-- `isValidGrid`: every cell non-zero and, with the cell temporarily
removed, `isValidPlacement` holds at its position. -/
def isValidGrid (cfg : GridConfig) (g : Grid) : Bool :=
  (isValidGridS cfg g).1

/-- `countEmptyCells`: number of positions of the configured grid whose
cell reads `0`. -/
def countEmptyCells (cfg : GridConfig) (g : Grid) : Nat :=
  (allPositions cfg).countP fun p => cellOf g p.1 p.2 == some 0

/-! ## Basic cell/`setCell` lemmas -/

theorem cellOf_eq_some {g : Grid} {r c v : Nat} :
    cellOf g r c = some v ↔
      ∃ hr : r < g.length, ∃ hc : c < (g[r]).length, (g[r])[c] = v := by
  unfold cellOf
  by_cases hr : r < g.length
  · rw [List.getElem?_eq_getElem hr]
    simp only [Option.some_bind]
    rw [List.getElem?_eq_some_iff]
    constructor
    · rintro ⟨h2, rfl⟩; exact ⟨hr, h2, rfl⟩
    · rintro ⟨h1x, h2, rfl⟩; exact ⟨h2, rfl⟩
  · rw [List.getElem?_eq_none_iff.2 (by omega)]
    simp only [Option.none_bind]
    constructor
    · intro h; exact Option.noConfusion h
    · rintro ⟨h1, -⟩; omega

theorem cellOf_isSome_iff {g : Grid} {r c : Nat} :
    (∃ v, cellOf g r c = some v) ↔
      ∃ hr : r < g.length, c < (g[r]).length := by
  constructor
  · rintro ⟨v, hv⟩
    obtain ⟨hr, hc, -⟩ := cellOf_eq_some.1 hv
    exact ⟨hr, hc⟩
  · rintro ⟨hr, hc⟩
    exact ⟨(g[r])[c], cellOf_eq_some.2 ⟨hr, hc, rfl⟩⟩

theorem getD_row_eq {g : Grid} {r : Nat} (hr : r < g.length) :
    g.getD r [] = g[r] := by
  simp [List.getD_eq_getElem?_getD, List.getElem?_eq_getElem hr]

theorem setCell_of_oob {g : Grid} {r c v : Nat} (h : cellOf g r c = none) :
    setCell g r c v = g := by
  unfold setCell
  by_cases hr : r < g.length
  · unfold cellOf at h
    rw [List.getElem?_eq_getElem hr] at h
    simp only [Option.some_bind] at h
    rw [List.getElem?_eq_none_iff] at h
    rw [getD_row_eq hr, List.set_eq_of_length_le h]
    apply List.ext_getElem (by simp)
    intro i h1 h2
    by_cases hir : i = r
    · subst hir; simp
    · rw [List.getElem_set_ne (show r ≠ i by omega)]
  · apply List.set_eq_of_length_le; omega

theorem cellOf_setCell_self {g : Grid} {r c v w : Nat}
    (h : cellOf g r c = some w) :
    cellOf (setCell g r c v) r c = some v := by
  obtain ⟨hr, hc, -⟩ := cellOf_eq_some.1 h
  unfold cellOf setCell
  rw [getD_row_eq hr, List.getElem?_set_self (by simpa using hr)]
  simp only [Option.some_bind]
  rw [List.getElem?_set_self (by simpa using hc)]

theorem cellOf_setCell_ne {g : Grid} {r c v : Nat} {r2 c2 : Nat}
    (h : ¬(r2 = r ∧ c2 = c)) :
    cellOf (setCell g r c v) r2 c2 = cellOf g r2 c2 := by
  by_cases hrr : r2 = r
  · subst hrr
    have hcne : c2 ≠ c := fun hcc => h ⟨rfl, hcc⟩
    by_cases hr : r2 < g.length
    · unfold setCell cellOf
      rw [getD_row_eq hr, List.getElem?_set_self (by simpa using hr),
        List.getElem?_eq_getElem hr]
      simp only [Option.some_bind]
      rw [List.getElem?_set_ne (show c ≠ c2 by omega)]
    · unfold setCell
      rw [List.set_eq_of_length_le (by omega)]
  · unfold setCell cellOf
    rw [List.getElem?_set_ne (show r ≠ r2 by omega)]

theorem setCell_setCell {g : Grid} {r c a b : Nat} :
    setCell (setCell g r c a) r c b = setCell g r c b := by
  by_cases hr : r < g.length
  · unfold setCell
    have hgetD2 : (g.set r ((g.getD r []).set c a)).getD r [] =
        (g.getD r []).set c a := by
      have hlt : r < (g.set r ((g.getD r []).set c a)).length := by simpa using hr
      rw [getD_row_eq hlt]
      simp
    rw [hgetD2, List.set_set, List.set_set]
  · unfold setCell
    have hle : g.length ≤ r := by omega
    simp only [List.set_eq_of_length_le hle]

theorem setCell_same {g : Grid} {r c v : Nat} (h : cellOf g r c = some v) :
    setCell g r c v = g := by
  obtain ⟨hr, hc, hval⟩ := cellOf_eq_some.1 h
  unfold setCell
  rw [getD_row_eq hr]
  have hrow : (g[r]).set c v = g[r] := by
    apply List.ext_getElem (by simp)
    intro i h1 h2
    by_cases hic : i = c
    · subst hic; rw [List.getElem_set_self]; exact hval.symm
    · rw [List.getElem_set_ne (show c ≠ i by omega)]
  rw [hrow]
  apply List.ext_getElem (by simp)
  intro i h1 h2
  by_cases hir : i = r
  · subst hir; simp
  · rw [List.getElem_set_ne (show r ≠ i by omega)]

/-- Restoring a cell after temporarily overwriting it yields the original
grid. -/
theorem setCell_restore {g : Grid} {r c v w : Nat}
    (h : cellOf g r c = some v) :
    setCell (setCell g r c w) r c v = g := by
  rw [setCell_setCell, setCell_same h]

theorem length_setCell (g : Grid) (r c v : Nat) :
    (setCell g r c v).length = g.length := by
  unfold setCell; simp

theorem shaped_setCell {n : Nat} {g : Grid} (hs : Shaped n g) (r c v : Nat) :
    Shaped n (setCell g r c v) := by
  obtain ⟨hlen, hrow⟩ := hs
  by_cases hr : r < g.length
  · constructor
    · rw [length_setCell]; exact hlen
    · intro row hmem
      unfold setCell at hmem
      rcases List.mem_or_eq_of_mem_set hmem with h | h
      · exact hrow _ h
      · subst h
        rw [List.length_set]
        rw [getD_row_eq hr]; exact hrow _ (by simp)
  · unfold setCell
    rw [List.set_eq_of_length_le (by omega)]
    exact ⟨hlen, hrow⟩

/-! ## Characterizations of the Validator scans -/

theorem hasNumberInRow_eq_false {cfg : GridConfig} {g : Grid} {row num : Nat} :
    hasNumberInRow cfg g row num = false ↔
      ∀ col, col < cfg.size → cellOf g row col ≠ some num := by
  unfold hasNumberInRow
  rw [List.any_eq_false]
  constructor
  · intro h col hc; have := h col (List.mem_range.2 hc); simpa using this
  · intro h col hc; simpa using h col (List.mem_range.1 hc)

theorem hasNumberInColumn_eq_false {cfg : GridConfig} {g : Grid} {col num : Nat} :
    hasNumberInColumn cfg g col num = false ↔
      ∀ row, row < cfg.size → cellOf g row col ≠ some num := by
  unfold hasNumberInColumn
  rw [List.any_eq_false]
  constructor
  · intro h row hr; have := h row (List.mem_range.2 hr); simpa using this
  · intro h row hr; simpa using h row (List.mem_range.1 hr)

theorem hasNumberInBox_eq_false {cfg : GridConfig} {g : Grid} {row col num : Nat} :
    hasNumberInBox cfg g row col num = false ↔
      ∀ dr dc, dr < cfg.boxRows → dc < cfg.boxCols →
        cellOf g (boxStartRow cfg row + dr) (boxStartCol cfg col + dc) ≠ some num := by
  unfold hasNumberInBox
  rw [List.any_eq_false]
  constructor
  · intro h dr dc hdr hdc
    have h1 := h dr (List.mem_range.2 hdr)
    rw [Bool.not_eq_true, List.any_eq_false] at h1
    have := h1 dc (List.mem_range.2 hdc)
    simpa using this
  · intro h dr hdr
    rw [Bool.not_eq_true, List.any_eq_false]
    intro dc hdc
    simpa using h dr dc (List.mem_range.1 hdr) (List.mem_range.1 hdc)

/-- `isValidPlacement` succeeds iff the value occurs at no scanned cell of
the row, the column, or the box of `(row, col)` — the cell `(row, col)`
itself included in the scan. -/
theorem isValidPlacement_eq_true {cfg : GridConfig} {g : Grid} {row col num : Nat} :
    isValidPlacement cfg g row col num = true ↔
      (∀ c2, c2 < cfg.size → cellOf g row c2 ≠ some num) ∧
      (∀ r2, r2 < cfg.size → cellOf g r2 col ≠ some num) ∧
      (∀ dr dc, dr < cfg.boxRows → dc < cfg.boxCols →
        cellOf g (boxStartRow cfg row + dr) (boxStartCol cfg col + dc) ≠ some num) := by
  unfold isValidPlacement
  simp only [Bool.and_eq_true, Bool.not_eq_true']
  rw [hasNumberInRow_eq_false, hasNumberInColumn_eq_false, hasNumberInBox_eq_false]

theorem findEmptyCell_eq_some {cfg : GridConfig} {g : Grid} {r c : Nat}
    (h : findEmptyCell cfg g = some (r, c)) :
    r < cfg.size ∧ c < cfg.size ∧ cellOf g r c = some 0 := by
  unfold findEmptyCell at h
  obtain ⟨row, hrow, hinner⟩ := List.exists_of_findSome?_eq_some h
  rcases hfind : (List.range cfg.size).find? fun col => cellOf g row col == some 0 with
    _ | col
  · rw [hfind] at hinner
    exact Option.noConfusion hinner
  · rw [hfind] at hinner
    rw [Option.map_some'] at hinner
    have heq : (row, col) = (r, c) := Option.some.inj hinner
    rw [Prod.mk.injEq] at heq
    obtain ⟨rfl, rfl⟩ := heq
    refine ⟨List.mem_range.1 hrow, List.mem_range.1 (List.mem_of_find?_eq_some hfind), ?_⟩
    have := List.find?_some hfind
    simpa using this

theorem findEmptyCell_eq_none {cfg : GridConfig} {g : Grid}
    (h : findEmptyCell cfg g = none) :
    ∀ r c, r < cfg.size → c < cfg.size → cellOf g r c ≠ some 0 := by
  unfold findEmptyCell at h
  rw [List.findSome?_eq_none_iff] at h
  intro r c hr hc hcell
  have := h r (List.mem_range.2 hr)
  rcases hfind : (List.range cfg.size).find? fun col => cellOf g r col == some 0 with
    _ | col
  · rw [List.find?_eq_none] at hfind
    exact hfind c (List.mem_range.2 hc) (by simpa using hcell)
  · rw [hfind, Option.map_some'] at this
    exact Option.noConfusion this

/-! ## `countEmptyCells` and position bookkeeping -/

theorem mem_allPositions {cfg : GridConfig} {p : Nat × Nat} :
    p ∈ allPositions cfg ↔ p.1 < cfg.size ∧ p.2 < cfg.size := by
  unfold allPositions
  rw [List.mem_flatMap]
  constructor
  · rintro ⟨r, hr, hmem⟩
    obtain ⟨c, hc, rfl⟩ := List.mem_map.1 hmem
    exact ⟨List.mem_range.1 hr, List.mem_range.1 hc⟩
  · rintro ⟨h1, h2⟩
    exact ⟨p.1, List.mem_range.2 h1,
      List.mem_map.2 ⟨p.2, List.mem_range.2 h2, rfl⟩⟩

theorem nodup_allPositions (cfg : GridConfig) : (allPositions cfg).Nodup := by
  unfold allPositions
  rw [List.nodup_flatMap]
  constructor
  · intro r hr
    exact List.Nodup.map (fun a b hab => by simpa using congrArg Prod.snd hab)
      (List.nodup_range _)
  · rw [List.pairwise_iff_forall_sublist]
    intro a b hsub
    have hab : a ≠ b := by
      intro h; subst h
      exact absurd (List.Sublist.nodup hsub (List.nodup_range _)) (by simp)
    intro p hpa hpb
    obtain ⟨c1, -, rfl⟩ := List.mem_map.1 hpa
    obtain ⟨c2, -, heq⟩ := List.mem_map.1 hpb
    exact hab (congrArg Prod.fst heq).symm

theorem length_allPositions (cfg : GridConfig) :
    (allPositions cfg).length = cfg.size * cfg.size := by
  unfold allPositions
  rw [List.length_flatMap]
  simp only [Function.comp_def, List.length_map, List.length_range]
  rw [List.map_const', List.length_range, List.sum_const_nat]

/-- If the predicates agree away from `x` and `l` has no duplicates, the
count moves by at most one. -/
theorem countP_le_succ_of_agree_away {α} {l : List α} {p q : α → Bool} {x : α}
    (hnd : l.Nodup) (h : ∀ y ∈ l, y ≠ x → p y = q y) :
    l.countP q ≤ l.countP p + 1 := by
  induction l with
  | nil => simp
  | cons a l ih =>
    obtain ⟨hna, hnd⟩ := List.nodup_cons.1 hnd
    rw [List.countP_cons, List.countP_cons]
    by_cases hax : a = x
    · subst hax
      have hcongr : l.countP q = l.countP p := by
        apply (List.countP_congr ?_).symm
        intro y hy
        rw [h y (List.mem_cons_of_mem _ hy) (fun hyx => hna (hyx ▸ hy))]
      rw [hcongr]
      split <;> split <;> omega
    · have := ih hnd (fun y hy => h y (List.mem_cons_of_mem _ hy))
      rw [h a (List.mem_cons_self _ _) hax]
      split <;> omega

/-- If the predicates agree away from `x`, `p` holds at `x` but `q` fails
there, and `x ∈ l` with `l` duplicate-free, the count strictly drops. -/
theorem countP_lt_of_flip_at {α} {l : List α} {p q : α → Bool} {x : α}
    (hnd : l.Nodup) (hmem : x ∈ l) (hpx : p x = true) (hqx : q x = false)
    (h : ∀ y ∈ l, y ≠ x → p y = q y) :
    l.countP q < l.countP p := by
  induction l with
  | nil => simp at hmem
  | cons a l ih =>
    obtain ⟨hna, hnd⟩ := List.nodup_cons.1 hnd
    rw [List.countP_cons, List.countP_cons]
    by_cases hax : a = x
    · subst hax
      have hcongr : l.countP q = l.countP p := by
        apply (List.countP_congr ?_).symm
        intro y hy
        rw [h y (List.mem_cons_of_mem _ hy) (fun hyx => hna (hyx ▸ hy))]
      rw [hcongr, hpx, hqx]
      simp
    · have hmem2 : x ∈ l := by
        rcases List.mem_cons.1 hmem with h1 | h1
        · exact absurd h1.symm hax
        · exact h1
      have := ih hnd hmem2 (fun y hy => h y (List.mem_cons_of_mem _ hy))
      rw [h a (List.mem_cons_self _ _) hax]
      split <;> omega

theorem countEmptyCells_setCell_lt {cfg : GridConfig} {g : Grid} {r c v : Nat}
    (hr : r < cfg.size) (hc : c < cfg.size) (hcell : cellOf g r c = some 0)
    (hv : v ≠ 0) :
    countEmptyCells cfg (setCell g r c v) < countEmptyCells cfg g := by
  unfold countEmptyCells
  apply countP_lt_of_flip_at (x := (r, c)) (nodup_allPositions cfg)
    (mem_allPositions.2 ⟨hr, hc⟩)
  · simpa using hcell
  · rw [cellOf_setCell_self hcell]; simpa using hv
  · rintro ⟨r2, c2⟩ - hne
    have : ¬(r2 = r ∧ c2 = c) := by
      rintro ⟨rfl, rfl⟩; exact hne rfl
    rw [cellOf_setCell_ne this]

theorem countEmptyCells_setCell_zero_le {cfg : GridConfig} (g : Grid) (r c : Nat) :
    countEmptyCells cfg (setCell g r c 0) ≤ countEmptyCells cfg g + 1 := by
  unfold countEmptyCells
  apply countP_le_succ_of_agree_away (x := (r, c)) (nodup_allPositions cfg)
  rintro ⟨r2, c2⟩ - hne
  have : ¬(r2 = r ∧ c2 = c) := by
    rintro ⟨rfl, rfl⟩; exact hne rfl
  rw [cellOf_setCell_ne this]

theorem countEmptyCells_le {cfg : GridConfig} (g : Grid) :
    countEmptyCells cfg g ≤ cfg.size * cfg.size := by
  unfold countEmptyCells
  calc (allPositions cfg).countP _ ≤ (allPositions cfg).length :=
        List.countP_le_length _
    _ = cfg.size * cfg.size := length_allPositions cfg

/-! ## The `isValidGrid` frame property -/

/-- `isValidGrid` restores every cell it temporarily zeroes: whatever the
input grid, the grid handed back equals the input. -/
theorem isValidGridGo_restore (cfg : GridConfig) :
    ∀ (ps : List (Nat × Nat)) (g : Grid), (isValidGridGo cfg ps g).2 = g := by
  intro ps
  induction ps with
  | nil => intro g; rfl
  | cons p rest ih =>
    intro g
    obtain ⟨r, c⟩ := p
    show (isValidGridGo cfg ((r, c) :: rest) g).2 = g
    rw [isValidGridGo]
    by_cases h0 : cellD g r c = 0
    · simp [h0]
    · have hsome : cellOf g r c = some (cellD g r c) := by
        unfold cellD at h0 ⊢
        cases hx : cellOf g r c with
        | none => rw [hx] at h0; simp at h0
        | some v => rfl
      have hrestore : setCell (setCell g r c 0) r c (cellD g r c) = g :=
        setCell_restore hsome
      simp only [if_neg h0, hrestore]
      split
      · exact ih g
      · rfl

/-! ## Consistency: the semantic row/column/box invariant -/

/-- Configurations produced by `GridFactory`: positive box dimensions with
`boxRows ≤ boxCols` and `boxRows * boxCols = size` (all four factory
configurations satisfy this). -/
def ValidConfig (cfg : GridConfig) : Prop :=
  0 < cfg.boxRows ∧ 0 < cfg.boxCols ∧ cfg.boxRows ≤ cfg.boxCols ∧
    cfg.boxRows * cfg.boxCols = cfg.size

/-- No non-zero value appears twice in a row, a column, or a box (sharing
a box = sharing the box origin computed the way the code computes it). -/
def Consistent (cfg : GridConfig) (g : Grid) : Prop :=
  ∀ r1 c1 r2 c2 v, r1 < cfg.size → c1 < cfg.size → r2 < cfg.size → c2 < cfg.size →
    (r1, c1) ≠ (r2, c2) → v ≠ 0 →
    cellOf g r1 c1 = some v → cellOf g r2 c2 = some v →
    ¬(r1 = r2 ∨ c1 = c2 ∨
      (boxStartRow cfg r1 = boxStartRow cfg r2 ∧ boxStartCol cfg c1 = boxStartCol cfg c2))

/-- Every in-range cell of the configured window is non-zero. -/
def FullI (cfg : GridConfig) (g : Grid) : Prop :=
  ∀ r c, r < cfg.size → c < cfg.size → cellOf g r c ≠ some 0

theorem boxStartRow_le {cfg : GridConfig} (r : Nat) : boxStartRow cfg r ≤ r := by
  unfold boxStartRow
  exact Nat.div_mul_le_self r cfg.boxRows

theorem lt_boxStartRow_add {cfg : GridConfig} (hb : 0 < cfg.boxRows) (r : Nat) :
    r < boxStartRow cfg r + cfg.boxRows := by
  unfold boxStartRow
  have h2 : r % cfg.boxRows < cfg.boxRows := Nat.mod_lt r hb
  calc r = r / cfg.boxRows * cfg.boxRows + r % cfg.boxRows :=
        (Nat.div_add_mod' r cfg.boxRows).symm
    _ < r / cfg.boxRows * cfg.boxRows + cfg.boxRows := Nat.add_lt_add_left h2 _

theorem boxStartRow_add_le {cfg : GridConfig} (hv : ValidConfig cfg) {r : Nat}
    (hr : r < cfg.size) : boxStartRow cfg r + cfg.boxRows ≤ cfg.size := by
  obtain ⟨h1, h2, -, h4⟩ := hv
  unfold boxStartRow
  have hq : r / cfg.boxRows < cfg.boxCols := by
    rw [Nat.div_lt_iff_lt_mul h1]
    calc r < cfg.size := hr
      _ = cfg.boxRows * cfg.boxCols := h4.symm
      _ = cfg.boxCols * cfg.boxRows := Nat.mul_comm _ _
  have hbc : cfg.boxCols - 1 + 1 = cfg.boxCols := by omega
  calc r / cfg.boxRows * cfg.boxRows + cfg.boxRows
      ≤ (cfg.boxCols - 1) * cfg.boxRows + cfg.boxRows := by
        apply Nat.add_le_add_right
        exact Nat.mul_le_mul_right _ (by omega)
    _ = (cfg.boxCols - 1 + 1) * cfg.boxRows := (Nat.succ_mul _ _).symm
    _ = cfg.boxCols * cfg.boxRows := by rw [hbc]
    _ = cfg.size := by rw [Nat.mul_comm]; exact h4

theorem boxStartCol_le {cfg : GridConfig} (c : Nat) : boxStartCol cfg c ≤ c := by
  unfold boxStartCol
  exact Nat.div_mul_le_self c cfg.boxCols

theorem lt_boxStartCol_add {cfg : GridConfig} (hb : 0 < cfg.boxCols) (c : Nat) :
    c < boxStartCol cfg c + cfg.boxCols := by
  unfold boxStartCol
  have h2 : c % cfg.boxCols < cfg.boxCols := Nat.mod_lt c hb
  calc c = c / cfg.boxCols * cfg.boxCols + c % cfg.boxCols :=
        (Nat.div_add_mod' c cfg.boxCols).symm
    _ < c / cfg.boxCols * cfg.boxCols + cfg.boxCols := Nat.add_lt_add_left h2 _

theorem boxStartCol_add_le {cfg : GridConfig} (hv : ValidConfig cfg) {c : Nat}
    (hc : c < cfg.size) : boxStartCol cfg c + cfg.boxCols ≤ cfg.size := by
  obtain ⟨h1, h2, -, h4⟩ := hv
  unfold boxStartCol
  have hq : c / cfg.boxCols < cfg.boxRows := by
    rw [Nat.div_lt_iff_lt_mul h2]
    calc c < cfg.size := hc
      _ = cfg.boxRows * cfg.boxCols := h4.symm
  have hbr : cfg.boxRows - 1 + 1 = cfg.boxRows := by omega
  calc c / cfg.boxCols * cfg.boxCols + cfg.boxCols
      ≤ (cfg.boxRows - 1) * cfg.boxCols + cfg.boxCols := by
        apply Nat.add_le_add_right
        exact Nat.mul_le_mul_right _ (by omega)
    _ = (cfg.boxRows - 1 + 1) * cfg.boxCols := (Nat.succ_mul _ _).symm
    _ = cfg.boxRows * cfg.boxCols := by rw [hbr]
    _ = cfg.size := h4

/-- A row within the scanned box window has the same box origin row. -/
theorem boxStartRow_of_window {cfg : GridConfig} (hb : 0 < cfg.boxRows)
    {r dr : Nat} (hdr : dr < cfg.boxRows) :
    boxStartRow cfg (boxStartRow cfg r + dr) = boxStartRow cfg r := by
  unfold boxStartRow
  congr 1
  rw [show r / cfg.boxRows * cfg.boxRows = cfg.boxRows * (r / cfg.boxRows) from
    Nat.mul_comm _ _]
  rw [Nat.mul_add_div hb, Nat.div_eq_of_lt hdr, Nat.add_zero]

theorem boxStartCol_of_window {cfg : GridConfig} (hb : 0 < cfg.boxCols)
    {c dc : Nat} (hdc : dc < cfg.boxCols) :
    boxStartCol cfg (boxStartCol cfg c + dc) = boxStartCol cfg c := by
  unfold boxStartCol
  congr 1
  rw [show c / cfg.boxCols * cfg.boxCols = cfg.boxCols * (c / cfg.boxCols) from
    Nat.mul_comm _ _]
  rw [Nat.mul_add_div hb, Nat.div_eq_of_lt hdc, Nat.add_zero]

/-- Two rows with equal box origin lie in each other's scan window. -/
theorem window_of_boxStartRow_eq {cfg : GridConfig} (hb : 0 < cfg.boxRows)
    {r1 r2 : Nat} (h : boxStartRow cfg r1 = boxStartRow cfg r2) :
    ∃ dr, dr < cfg.boxRows ∧ r2 = boxStartRow cfg r1 + dr := by
  refine ⟨r2 - boxStartRow cfg r2, ?_, ?_⟩
  · have h1 := @boxStartRow_le cfg r2
    have h2 := lt_boxStartRow_add hb r2
    omega
  · have h1 := @boxStartRow_le cfg r2
    omega

theorem window_of_boxStartCol_eq {cfg : GridConfig} (hb : 0 < cfg.boxCols)
    {c1 c2 : Nat} (h : boxStartCol cfg c1 = boxStartCol cfg c2) :
    ∃ dc, dc < cfg.boxCols ∧ c2 = boxStartCol cfg c1 + dc := by
  refine ⟨c2 - boxStartCol cfg c2, ?_, ?_⟩
  · have h1 := @boxStartCol_le cfg c2
    have h2 := lt_boxStartCol_add hb c2
    omega
  · have h1 := @boxStartCol_le cfg c2
    omega

theorem shaped_cellOf {n : Nat} {g : Grid} (hs : Shaped n g) {r c : Nat}
    (hr : r < n) (hc : c < n) : ∃ v, cellOf g r c = some v := by
  obtain ⟨hlen, hrow⟩ := hs
  have hr2 : r < g.length := by omega
  apply cellOf_isSome_iff.2
  refine ⟨hr2, ?_⟩
  rw [hrow _ (List.getElem_mem hr2)]
  exact hc

theorem cellOf_setCell_zero_inv {g : Grid} {r c r2 c2 v : Nat}
    (h : cellOf (setCell g r c 0) r2 c2 = some v) (hv : v ≠ 0) :
    cellOf g r2 c2 = some v := by
  by_cases hp : r2 = r ∧ c2 = c
  · obtain ⟨rfl, rfl⟩ := hp
    cases hx : cellOf g r2 c2 with
    | none => rw [setCell_of_oob hx] at h; rw [hx] at h; exact h
    | some w =>
      rw [cellOf_setCell_self hx] at h
      exact absurd (Option.some.inj h).symm hv
  · rw [cellOf_setCell_ne hp] at h
    exact h

theorem consistent_setCell_zero {cfg : GridConfig} {g : Grid}
    (hc : Consistent cfg g) (r c : Nat) :
    Consistent cfg (setCell g r c 0) := by
  intro r1 c1 r2 c2 v h1 h2 h3 h4 hne hv hc1 hc2
  exact hc r1 c1 r2 c2 v h1 h2 h3 h4 hne hv
    (cellOf_setCell_zero_inv hc1 hv) (cellOf_setCell_zero_inv hc2 hv)

/-- The clash rule is symmetric in the two positions. -/
theorem consistent_symm_clause {cfg : GridConfig} {r1 c1 r2 c2 : Nat} :
    (r1 = r2 ∨ c1 = c2 ∨
      (boxStartRow cfg r1 = boxStartRow cfg r2 ∧ boxStartCol cfg c1 = boxStartCol cfg c2)) →
    (r2 = r1 ∨ c2 = c1 ∨
      (boxStartRow cfg r2 = boxStartRow cfg r1 ∧ boxStartCol cfg c2 = boxStartCol cfg c1)) := by
  rintro (h | h | ⟨h1, h2⟩)
  · exact Or.inl h.symm
  · exact Or.inr (Or.inl h.symm)
  · exact Or.inr (Or.inr ⟨h1.symm, h2.symm⟩)

/-- A valid placement into an empty cell cannot clash with any existing
in-range cell of the same row, column, or box. -/
theorem isValidPlacement_no_clash {cfg : GridConfig} {g : Grid} {r c v : Nat}
    (hv : ValidConfig cfg) (hr : r < cfg.size) (hc : c < cfg.size)
    (hok : isValidPlacement cfg g r c v = true)
    {r2 c2 : Nat} (hr2 : r2 < cfg.size) (hc2 : c2 < cfg.size)
    (hcell : cellOf g r2 c2 = some v) :
    ¬(r = r2 ∨ c = c2 ∨
      (boxStartRow cfg r = boxStartRow cfg r2 ∧ boxStartCol cfg c = boxStartCol cfg c2)) := by
  obtain ⟨hrowScan, hcolScan, hboxScan⟩ := isValidPlacement_eq_true.1 hok
  rintro (h | h | ⟨h1, h2⟩)
  · subst h; exact hrowScan c2 hc2 hcell
  · subst h; exact hcolScan r2 hr2 hcell
  · obtain ⟨dr, hdr, hdrEq⟩ := window_of_boxStartRow_eq hv.1 h1
    obtain ⟨dc, hdc, hdcEq⟩ := window_of_boxStartCol_eq hv.2.1 h2
    exact hboxScan dr dc hdr hdc (by rw [← hdrEq, ← hdcEq]; exact hcell)

theorem consistent_setCell_place {cfg : GridConfig} {g : Grid} {r c v : Nat}
    (hv : ValidConfig cfg) (hcons : Consistent cfg g)
    (hr : r < cfg.size) (hc : c < cfg.size)
    (hzero : cellOf g r c = some 0) (hv0 : v ≠ 0)
    (hok : isValidPlacement cfg g r c v = true) :
    Consistent cfg (setCell g r c v) := by
  intro r1 c1 r2 c2 w h1 h2 h3 h4 hne hw hc1 hc2 hclash
  by_cases hp1 : r1 = r ∧ c1 = c
  · obtain ⟨rfl, rfl⟩ := hp1
    have hwv : w = v := by
      rw [cellOf_setCell_self hzero] at hc1
      exact (Option.some.inj hc1).symm
    subst hwv
    have hp2 : ¬(r2 = r1 ∧ c2 = c1) := by
      rintro ⟨rfl, rfl⟩; exact hne rfl
    rw [cellOf_setCell_ne hp2] at hc2
    exact isValidPlacement_no_clash hv hr hc hok h3 h4 hc2 hclash
  · by_cases hp2 : r2 = r ∧ c2 = c
    · obtain ⟨rfl, rfl⟩ := hp2
      have hwv : w = v := by
        rw [cellOf_setCell_self hzero] at hc2
        exact (Option.some.inj hc2).symm
      subst hwv
      rw [cellOf_setCell_ne hp1] at hc1
      exact isValidPlacement_no_clash hv hr hc hok h1 h2 hc1
        (consistent_symm_clause hclash)
    · rw [cellOf_setCell_ne hp1] at hc1
      rw [cellOf_setCell_ne hp2] at hc2
      exact hcons r1 c1 r2 c2 w h1 h2 h3 h4 hne hw hc1 hc2 hclash

/-- On a shaped, full, consistent grid, the `isValidGrid` scan succeeds at
every in-range position list. -/
theorem isValidGridGo_of_consistent {cfg : GridConfig} {g : Grid}
    (hv : ValidConfig cfg) (hs : Shaped cfg.size g) (hf : FullI cfg g)
    (hcons : Consistent cfg g) :
    ∀ ps : List (Nat × Nat), (∀ p ∈ ps, p.1 < cfg.size ∧ p.2 < cfg.size) →
      (isValidGridGo cfg ps g).1 = true := by
  intro ps
  induction ps with
  | nil => intro _; rfl
  | cons p rest ih =>
    intro hmem
    obtain ⟨r, c⟩ := p
    obtain ⟨hr0, hc0⟩ := hmem (r, c) (List.mem_cons_self _ _)
    have hr : r < cfg.size := hr0
    have hc : c < cfg.size := hc0
    obtain ⟨w, hw⟩ := shaped_cellOf hs hr hc
    have hw0 : w ≠ 0 := by
      intro h; subst h; exact hf r c hr hc hw
    have hcd : cellD g r c = w := by unfold cellD; rw [hw]; rfl
    rw [isValidGridGo, hcd]
    rw [if_neg hw0]
    have hzero1 : cellOf (setCell g r c 0) r c = some 0 := cellOf_setCell_self hw
    have hok : isValidPlacement cfg (setCell g r c 0) r c w = true := by
      apply isValidPlacement_eq_true.2
      refine ⟨?_, ?_, ?_⟩
      · intro c2 hc2 hbad
        by_cases hcc : c2 = c
        · subst hcc; rw [hzero1] at hbad; exact hw0 (Option.some.inj hbad).symm
        · rw [cellOf_setCell_ne (by tauto)] at hbad
          have hne2 : ((r : Nat), (c : Nat)) ≠ (r, c2) := by
            intro h; rw [Prod.mk.injEq] at h; exact hcc h.2.symm
          exact hcons r c r c2 w hr hc hr hc2 hne2 hw0 hw hbad (Or.inl rfl)
      · intro r2 hr2 hbad
        by_cases hrr : r2 = r
        · subst hrr; rw [hzero1] at hbad; exact hw0 (Option.some.inj hbad).symm
        · rw [cellOf_setCell_ne (by tauto)] at hbad
          have hne2 : ((r : Nat), (c : Nat)) ≠ (r2, c) := by
            intro h; rw [Prod.mk.injEq] at h; exact hrr h.1.symm
          exact hcons r c r2 c w hr hc hr2 hc hne2 hw0 hw hbad
            (Or.inr (Or.inl rfl))
      · intro dr dc hdr hdc hbad
        have hr2 : boxStartRow cfg r + dr < cfg.size := by
          have h1 := boxStartRow_add_le hv hr
          omega
        have hc2 : boxStartCol cfg c + dc < cfg.size := by
          have h1 := boxStartCol_add_le hv hc
          omega
        by_cases hpp : boxStartRow cfg r + dr = r ∧ boxStartCol cfg c + dc = c
        · obtain ⟨h1, h2⟩ := hpp
          rw [h1, h2, hzero1] at hbad
          exact hw0 (Option.some.inj hbad).symm
        · rw [cellOf_setCell_ne hpp] at hbad
          have hne2 : ((r : Nat), (c : Nat)) ≠
              (boxStartRow cfg r + dr, boxStartCol cfg c + dc) := by
            intro h; rw [Prod.mk.injEq] at h
            exact hpp ⟨h.1.symm, h.2.symm⟩
          exact hcons r c (boxStartRow cfg r + dr) (boxStartCol cfg c + dc) w
            hr hc hr2 hc2 hne2 hw0 hw hbad
            (Or.inr (Or.inr ⟨(boxStartRow_of_window hv.1 hdr).symm,
              (boxStartCol_of_window hv.2.1 hdc).symm⟩))
    rw [if_pos hok, setCell_restore hw]
    exact ih fun p hp => hmem p (List.mem_cons_of_mem _ hp)

/-- A shaped, full, consistent grid passes `isValidGrid`. -/
theorem isValidGrid_of_consistent {cfg : GridConfig} {g : Grid}
    (hv : ValidConfig cfg) (hs : Shaped cfg.size g) (hf : FullI cfg g)
    (hcons : Consistent cfg g) : isValidGrid cfg g = true := by
  unfold isValidGrid isValidGridS
  exact isValidGridGo_of_consistent hv hs hf hcons (allPositions cfg)
    fun p hp => mem_allPositions.1 hp

/-! ## Randomness oracle and Fisher–Yates shuffle -/

/-- The `Math.random()` draw stream: draw `k` yields `s k`; each
`Math.floor(Math.random() * n)` becomes `head s % n`. -/
def RNG := Nat → Nat

def rngHead (s : RNG) : Nat := s 0

def rngTail (s : RNG) : RNG := fun n => s (n + 1)

/-- `[array[i], array[j]] = [array[j], array[i]]`. -/
def swapL {α} (l : List α) (i j : Nat) : List α :=
  match l[i]?, l[j]? with
  | some x, some y => (l.set i y).set j x
  | _, _ => l

/-- The Fisher–Yates loop of `shuffleArray`: for `i` from `length - 1`
down to `1`, swap index `i` with a drawn index `j ≤ i`. -/
def fyGo {α} : List α → Nat → RNG → List α × RNG
  | a, 0, s => (a, s)
  | a, k + 1, s => fyGo (swapL a (k + 1) (rngHead s % (k + 2))) k (rngTail s)

/-- `shuffleArray` (identical in `SudokuSolver` and `SudokuGenerator`; the
solver first copies the list, which is value-equal). -/
def shuffleArray {α} (a : List α) (s : RNG) : List α × RNG :=
  fyGo a (a.length - 1) s

theorem list_set_self {α} (l : List α) {i : Nat} (hi : i < l.length) :
    l.set i (l[i]) = l := by
  apply List.ext_getElem (by simp)
  intro k h1 h2
  by_cases hik : i = k
  · subst hik; simp
  · rw [List.getElem_set_ne hik]

theorem cons_middle_swap {α} (x y : α) (B C : List α) :
    (y :: (B ++ x :: C)).Perm (x :: (B ++ y :: C)) := by
  refine List.Perm.trans (List.Perm.cons y List.perm_middle) ?_
  refine List.Perm.trans (List.Perm.swap x y _) ?_
  exact List.Perm.cons x List.perm_middle.symm

theorem transpose_perm {α} (l : List α) {i j : Nat} (hij : i < j)
    (hj : j < l.length) :
    ((l.set i (l[j])).set j (l[i])).Perm l := by
  have hi : i < l.length := Nat.lt_trans hij hj
  have hlen_take : (l.take i).length = i := by rw [List.length_take]; omega
  have hk : j - i - 1 < (l.drop (i + 1)).length := by rw [List.length_drop]; omega
  have hstep1 : l.set i (l[j]) = l.take i ++ l[j] :: l.drop (i + 1) := by
    rw [List.set_eq_take_append_cons_drop, if_pos hi]
  have hstep2 : (l.take i ++ l[j] :: l.drop (i + 1)).set j (l[i])
      = l.take i ++ l[j] :: (l.drop (i + 1)).set (j - i - 1) (l[i]) := by
    rw [List.set_append_right _ _ (by rw [hlen_take]; omega), hlen_take]
    congr 1
    conv_lhs => rw [show j - i = (j - i - 1) + 1 from by omega]
    rw [List.set_cons_succ]
  have hDk : (l.drop (i + 1))[j - i - 1] = l[j] := by
    rw [List.getElem_drop]
    congr 1
    omega
  have hstep3 : (l.drop (i + 1)).set (j - i - 1) (l[i])
      = (l.drop (i + 1)).take (j - i - 1) ++
          l[i] :: (l.drop (i + 1)).drop (j - i) := by
    rw [List.set_eq_take_append_cons_drop, if_pos hk]
    rw [show j - i - 1 + 1 = j - i from by omega]
  have hstep4 : l.drop (i + 1) =
      (l.drop (i + 1)).take (j - i - 1) ++
        l[j] :: (l.drop (i + 1)).drop (j - i) := by
    conv_lhs => rw [← List.take_append_drop (j - i - 1) (l.drop (i + 1))]
    congr 1
    rw [← List.getElem_cons_drop _ _ hk, hDk,
      show j - i - 1 + 1 = j - i from by omega]
  have hdecomp : l = l.take i ++ l[i] :: l.drop (i + 1) := by
    conv_lhs => rw [← List.take_append_drop i l]
    congr 1
    rw [← List.getElem_cons_drop _ _ hi]
  have hmain : (l.set i (l[j])).set j (l[i])
      = l.take i ++ l[j] :: ((l.drop (i + 1)).take (j - i - 1) ++
          l[i] :: (l.drop (i + 1)).drop (j - i)) := by
    rw [hstep1, hstep2, hstep3]
  rw [hmain]
  refine List.Perm.trans
    (List.Perm.append_left (l.take i)
      (cons_middle_swap (l[i]) (l[j]) _ _)) ?_
  rw [← hstep4, ← hdecomp]

theorem swapL_perm {α} (l : List α) (i j : Nat) : (swapL l i j).Perm l := by
  unfold swapL
  cases hx : l[i]? with
  | none => exact List.Perm.refl l
  | some x =>
    cases hy : l[j]? with
    | none => exact List.Perm.refl l
    | some y =>
      obtain ⟨hi, hxv⟩ := List.getElem?_eq_some_iff.1 hx
      obtain ⟨hj, hyv⟩ := List.getElem?_eq_some_iff.1 hy
      subst hxv hyv
      show ((l.set i (l[j])).set j (l[i])).Perm l
      rcases Nat.lt_trichotomy i j with hij | rfl | hij
      · exact transpose_perm l hij hj
      · rw [List.set_set, list_set_self l hi]
      · rw [List.set_comm _ _ _ (show i ≠ j by omega)]
        exact transpose_perm l hij hi

theorem fyGo_perm {α} : ∀ (k : Nat) (a : List α) (s : RNG), (fyGo a k s).1.Perm a := by
  intro k
  induction k with
  | zero => intro a s; exact List.Perm.refl a
  | succ k ih =>
    intro a s
    exact (ih _ _).trans (swapL_perm a (k + 1) (rngHead s % (k + 2)))

/-- Whatever the random stream, `shuffleArray` returns a permutation of
its input. -/
theorem shuffleArray_perm {α} (a : List α) (s : RNG) :
    (shuffleArray a s).1.Perm a :=
  fyGo_perm _ a s

/-! ## Solver (`SudokuSolver`, `src/sudo/lib/socket/useSocket.ts`) -/

/-- `copyGrid`: `grid.map(row => [...row])` — a deep copy, value-equal to
its input. -/
def copyGrid (g : Grid) : Grid := g.map fun row => row.map fun x => x

theorem copyGrid_eq (g : Grid) : copyGrid g = g := by
  unfold copyGrid
  simp

/-- `solve`: the inner loop over candidate values, with the recursive
call abstracted as `F` (instantiated with the solver at the next fuel
level).  On a failed branch the cell is reset to `0` before the next
candidate, exactly as in the source. -/
def solveTry (cfg : GridConfig) (F : Grid → Bool × Grid) (r c : Nat) :
    Grid → List Nat → Bool × Grid
  | g, [] => (false, g)
  | g, num :: rest =>
    if isValidPlacement cfg g r c num then
      let res := F (setCell g r c num)
      if res.1 then res
      else solveTry cfg F r c (setCell res.2 r c 0) rest
    else solveTry cfg F r c g rest

/-- `solve(grid)`: recursive backtracking over the first empty cell,
candidates tried in ascending order `1..size`.  The fuel argument makes
the unbounded recursion structural; with adequate fuel it is never
exhausted. -/
def solveF (cfg : GridConfig) : Nat → Grid → Bool × Grid
  | 0, g => (false, g)
  | fuel + 1, g =>
    match findEmptyCell cfg g with
    | none => (true, g)
    | some (r, c) => solveTry cfg (solveF cfg fuel) r c g (List.range' 1 cfg.size)

/-- `countSolutionsHelper`: inner loop accumulating the branch count with
the early exit at `limit`. -/
def countTry (cfg : GridConfig) (F : Grid → Nat × Grid) (limit r c : Nat) :
    Grid → List Nat → Nat → Nat × Grid
  | g, [], count => (count, g)
  | g, num :: rest, count =>
    if isValidPlacement cfg g r c num then
      let res := F (setCell g r c num)
      let count2 := count + res.1
      if limit ≤ count2 then (count2, setCell res.2 r c 0)
      else countTry cfg F limit r c (setCell res.2 r c 0) rest count2
    else countTry cfg F limit r c g rest count

/-- `countSolutionsHelper(grid, limit)` with fuel. -/
def countF (cfg : GridConfig) : Nat → Grid → Nat → Nat × Grid
  | 0, g, _ => (0, g)
  | fuel + 1, g, limit =>
    match findEmptyCell cfg g with
    | none => (1, g)
    | some (r, c) =>
      countTry cfg (fun g2 => countF cfg fuel g2 limit) limit r c g
        (List.range' 1 cfg.size) 0

/-- `countSolutions(grid, limit)`: copies the grid and runs the helper on
the copy; only the count is returned. -/
def countSolutions (cfg : GridConfig) (fuel : Nat) (g : Grid) (limit : Nat) : Nat :=
  (countF cfg fuel (copyGrid g) limit).1

/-- `countSolutions` seen as a state transformer on the caller's grid:
the helper receives the private copy `gridCopy`, so the caller's array is
never written — the caller-visible grid comes back exactly as passed. -/
def countSolutionsS (cfg : GridConfig) (fuel : Nat) (g : Grid) (limit : Nat) :
    Nat × Grid :=
  let gridCopy := copyGrid g
  ((countF cfg fuel gridCopy limit).1, g)

/-- `generateCompletedGrid`: same loop as `solve` but candidates come
shuffled; the random stream is threaded through. -/
def genTry (cfg : GridConfig) (F : Grid → RNG → Bool × Grid × RNG) (r c : Nat) :
    Grid → List Nat → RNG → Bool × Grid × RNG
  | g, [], s => (false, g, s)
  | g, num :: rest, s =>
    if isValidPlacement cfg g r c num then
      let res := F (setCell g r c num) s
      if res.1 then res
      else genTry cfg F r c (setCell res.2.1 r c 0) rest res.2.2
    else genTry cfg F r c g rest s

/-- `generateCompletedGrid(grid)` with fuel and random stream. -/
def genF (cfg : GridConfig) : Nat → Grid → RNG → Bool × Grid × RNG
  | 0, g, s => (false, g, s)
  | fuel + 1, g, s =>
    match findEmptyCell cfg g with
    | none => (true, g, s)
    | some (r, c) =>
      let ns := shuffleArray (List.range' 1 cfg.size) s
      genTry cfg (genF cfg fuel) r c g ns.1 ns.2

/-- The `idx`-ordered cell offsets of one box (row-major), matching the
nested loop of `fillBox`. -/
def boxOffsets (cfg : GridConfig) : List (Nat × Nat) :=
  (List.range cfg.boxRows).flatMap fun br => (List.range cfg.boxCols).map fun bc => (br, bc)

/-- `fillBox(grid, startRow, startCol)`: write a shuffled `1..size` into
the box cells in row-major order. -/
def fillBox (cfg : GridConfig) (g : Grid) (startRow startCol : Nat) (s : RNG) :
    Grid × RNG :=
  let ns := shuffleArray (List.range' 1 cfg.size) s
  (((boxOffsets cfg).zip ns.1).foldl
    (fun acc pv => setCell acc (startRow + pv.1.1) (startCol + pv.1.2) pv.2) g,
   ns.2)

/-- The values taken by `for (let box = 0; box < stop; box += step)`,
with an explicit structural bound on the number of iterations. -/
def upByF : Nat → Nat → Nat → Nat → List Nat
  | 0, _, _, _ => []
  | fuel + 1, start, stop, step =>
    if start < stop ∧ 0 < step then start :: upByF fuel (start + step) stop step
    else []

/-- The values taken by `for (let box = 0; box < stop; box += step)`:
`stop - start` iterations always suffice. -/
def upBy (start stop step : Nat) : List Nat :=
  upByF (stop - start) start stop step

theorem upByF_congr : ∀ (f1 f2 start stop step : Nat),
    stop - start ≤ f1 → stop - start ≤ f2 →
    upByF f1 start stop step = upByF f2 start stop step := by
  intro f1
  induction f1 with
  | zero =>
    intro f2 start stop step h1 h2
    cases f2 with
    | zero => rfl
    | succ f2 =>
      have hns : ¬ (start < stop ∧ 0 < step) := by omega
      simp only [upByF, if_neg hns]
  | succ f1 ih =>
    intro f2 start stop step h1 h2
    cases f2 with
    | zero =>
      have hns : ¬ (start < stop ∧ 0 < step) := by omega
      simp only [upByF, if_neg hns]
    | succ f2 =>
      by_cases hc : start < stop ∧ 0 < step
      · simp only [upByF, if_pos hc]
        rw [ih f2 (start + step) stop step (by omega) (by omega)]
      · simp only [upByF, if_neg hc]

/-- The loop unfolding of `upBy`. -/
theorem upBy_eq (start stop step : Nat) :
    upBy start stop step =
      if start < stop ∧ 0 < step then start :: upBy (start + step) stop step
      else [] := by
  unfold upBy
  by_cases hc : start < stop ∧ 0 < step
  · rw [if_pos hc]
    have h1 : stop - start = (stop - start - 1) + 1 := by omega
    rw [h1]
    simp only [upByF, if_pos hc]
    rw [upByF_congr (stop - start - 1) (stop - (start + step)) (start + step)
      stop step (by omega) (by omega)]
  · rw [if_neg hc]
    cases hss : stop - start with
    | zero => rfl
    | succ k => simp only [upByF, if_neg hc]

/-- `fillDiagonalBoxes(grid)`: fill the boxes with origin `(b, b)` for
`b = 0, boxCols, 2·boxCols, …` below `size`. -/
def fillDiagonalBoxes (cfg : GridConfig) (g : Grid) (s : RNG) : Grid × RNG :=
  (upBy 0 cfg.size cfg.boxCols).foldl
    (fun acc b => fillBox cfg acc.1 b b acc.2) (g, s)

/-! ## Generator (`SudokuGenerator`) -/

/-- `GeneratedPuzzle`. -/
structure GeneratedPuzzle where
  puzzle : Grid
  solution : Grid
  difficulty : Difficulty
  gridSize : Nat
deriving Repr

/-- `createEmptyGrid`. -/
def createEmptyGrid (cfg : GridConfig) : Grid :=
  List.replicate cfg.size (List.replicate cfg.size 0)

/-- `getCellsToRemove(difficulty)`: the per-size, per-difficulty removal
table, with the `floor(totalCells * 0.5)` default for unlisted sizes. -/
def getCellsToRemove (cfg : GridConfig) (d : Difficulty) : Nat :=
  if cfg.size = 4 then
    match d with
    | .easy => 7
    | .medium => 8
    | .hard => 10
  else if cfg.size = 6 then
    match d with
    | .easy => 18
    | .medium => 24
    | .hard => 26
  else if cfg.size = 9 then
    match d with
    | .easy => 40
    | .medium => 50
    | .hard => 62
  else if cfg.size = 12 then
    match d with
    | .easy => 70
    | .medium => 90
    | .hard => 110
  else
    cfg.size * cfg.size / 2

/-- The carve loop of `createPuzzle`: per shuffled position, tentatively
zero the cell, keep the removal iff `countSolutions(puzzle, 2) == 1`,
else restore the backup; stop once `removed` reaches the target. -/
def removeLoop (cfg : GridConfig) (cFuel target : Nat) :
    Grid → List (Nat × Nat) → Nat → Grid
  | puzzle, [], _ => puzzle
  | puzzle, (r, c) :: rest, removed =>
    if target ≤ removed then puzzle
    else
      let backup := cellD puzzle r c
      let puzzle1 := setCell puzzle r c 0
      if countSolutions cfg cFuel puzzle1 2 = 1 then
        removeLoop cfg cFuel target puzzle1 rest (removed + 1)
      else
        removeLoop cfg cFuel target (setCell puzzle1 r c backup) rest removed

/-- `createPuzzle(solution, difficulty)`. -/
def createPuzzle (cfg : GridConfig) (cFuel : Nat) (solution : Grid)
    (d : Difficulty) (s : RNG) : Grid × RNG :=
  let puzzle := copyGrid solution
  let ps := shuffleArray (allPositions cfg) s
  (removeLoop cfg cFuel (getCellsToRemove cfg d) puzzle ps.1 0, ps.2)

/-- `solution.some(row => row.includes(0))`. -/
def hasZeros (g : Grid) : Bool := g.any fun row => row.contains 0

/-- The `while (attempts < maxAttempts)` loop of `generate`. -/
def generateLoop (cfg : GridConfig) (gFuel cFuel : Nat) (d : Difficulty) :
    Nat → RNG → Option GeneratedPuzzle
  | 0, _ => none
  | attempts + 1, s =>
    let g0 := createEmptyGrid cfg
    let f1 := fillDiagonalBoxes cfg g0 s
    let f2 := genF cfg gFuel f1.1 f1.2
    if f2.1 && !hasZeros f2.2.1 then
      let p := createPuzzle cfg cFuel f2.2.1 d f2.2.2
      some ⟨p.1, f2.2.1, d, cfg.size⟩
    else generateLoop cfg gFuel cFuel d attempts f2.2.2

/-- `generate(difficulty)`: up to 100 attempts; exhaustion throws (here:
`none`). -/
def generate (cfg : GridConfig) (gFuel cFuel : Nat) (d : Difficulty) (s : RNG) :
    Option GeneratedPuzzle :=
  generateLoop cfg gFuel cFuel d 100 s

/-! ## Backtracking restores the grid -/

/-- `countSolutionsHelper` undoes every placement: the grid it returns is
the grid it received, whatever the fuel and limit. -/
theorem countTry_restore (cfg : GridConfig) {F : Grid → Nat × Grid}
    {limit r c : Nat} (hF : ∀ g2, (F g2).2 = g2) {g : Grid}
    (h0 : cellOf g r c = some 0) :
    ∀ (nums : List Nat) (count : Nat),
      (countTry cfg F limit r c g nums count).2 = g := by
  intro nums
  induction nums with
  | nil => intro count; rfl
  | cons num rest ih =>
    intro count
    rw [countTry]
    have hback : setCell (F (setCell g r c num)).2 r c 0 = g := by
      rw [hF _, setCell_setCell, setCell_same h0]
    by_cases hvp : isValidPlacement cfg g r c num = true
    · rw [if_pos hvp]
      by_cases hlim : limit ≤ count + (F (setCell g r c num)).1
      · rw [if_pos hlim]
        exact hback
      · rw [if_neg hlim, hback]
        exact ih _
    · rw [if_neg hvp]
      exact ih _

theorem countF_restore (cfg : GridConfig) :
    ∀ (fuel : Nat) (g : Grid) (limit : Nat), (countF cfg fuel g limit).2 = g := by
  intro fuel
  induction fuel with
  | zero => intro g limit; rfl
  | succ fuel ih =>
    intro g limit
    rw [countF]
    cases hfe : findEmptyCell cfg g with
    | none => rfl
    | some rc =>
      obtain ⟨r, c⟩ := rc
      exact countTry_restore cfg (fun g2 => ih g2 limit)
        (findEmptyCell_eq_some hfe).2.2 _ _

/-- `solve` leaves the grid untouched when it fails. -/
theorem solveTry_fail_restore (cfg : GridConfig) {F : Grid → Bool × Grid}
    {r c : Nat} (hF : ∀ g2, (F g2).1 = false → (F g2).2 = g2) {g : Grid}
    (h0 : cellOf g r c = some 0) :
    ∀ nums : List Nat, (solveTry cfg F r c g nums).1 = false →
      (solveTry cfg F r c g nums).2 = g := by
  intro nums
  induction nums with
  | nil => intro _; rfl
  | cons num rest ih =>
    intro hfail
    rw [solveTry] at hfail ⊢
    by_cases hvp : isValidPlacement cfg g r c num = true
    · rw [if_pos hvp] at hfail ⊢
      by_cases hres : (F (setCell g r c num)).1 = true
      · rw [if_pos hres] at hfail ⊢
        rw [hres] at hfail
        exact absurd hfail (by decide)
      · rw [if_neg hres] at hfail ⊢
        have hres2 : (F (setCell g r c num)).1 = false := by
          revert hres; cases (F (setCell g r c num)).1 <;> simp
        have hback : setCell (F (setCell g r c num)).2 r c 0 = g := by
          rw [hF _ hres2, setCell_setCell, setCell_same h0]
        rw [hback] at hfail ⊢
        exact ih hfail
    · rw [if_neg hvp] at hfail ⊢
      exact ih hfail

theorem solveF_fail_restore (cfg : GridConfig) :
    ∀ (fuel : Nat) (g : Grid), (solveF cfg fuel g).1 = false →
      (solveF cfg fuel g).2 = g := by
  intro fuel
  induction fuel with
  | zero => intro g _; rfl
  | succ fuel ih =>
    intro g hfail
    rw [solveF] at hfail ⊢
    cases hfe : findEmptyCell cfg g with
    | none => rw [hfe] at hfail
    | some rc =>
      obtain ⟨r, c⟩ := rc
      rw [hfe] at hfail
      have hfail2 :
          (solveTry cfg (solveF cfg fuel) r c g (List.range' 1 cfg.size)).1 = false :=
        hfail
      show (solveTry cfg (solveF cfg fuel) r c g (List.range' 1 cfg.size)).2 = g
      exact solveTry_fail_restore cfg ih (findEmptyCell_eq_some hfe).2.2 _ hfail2

/-- `generateCompletedGrid` leaves the grid untouched when it fails. -/
theorem genTry_fail_restore (cfg : GridConfig)
    {F : Grid → RNG → Bool × Grid × RNG} {r c : Nat}
    (hF : ∀ g2 s2, (F g2 s2).1 = false → (F g2 s2).2.1 = g2) {g : Grid}
    (h0 : cellOf g r c = some 0) :
    ∀ (nums : List Nat) (s : RNG), (genTry cfg F r c g nums s).1 = false →
      (genTry cfg F r c g nums s).2.1 = g := by
  intro nums
  induction nums with
  | nil => intro s _; rfl
  | cons num rest ih =>
    intro s hfail
    rw [genTry] at hfail ⊢
    by_cases hvp : isValidPlacement cfg g r c num = true
    · rw [if_pos hvp] at hfail ⊢
      by_cases hres : (F (setCell g r c num) s).1 = true
      · rw [if_pos hres] at hfail ⊢
        rw [hres] at hfail
        exact absurd hfail (by decide)
      · rw [if_neg hres] at hfail ⊢
        have hres2 : (F (setCell g r c num) s).1 = false := by
          revert hres; cases (F (setCell g r c num) s).1 <;> simp
        have hback : setCell (F (setCell g r c num) s).2.1 r c 0 = g := by
          rw [hF _ _ hres2, setCell_setCell, setCell_same h0]
        rw [hback] at hfail ⊢
        exact ih _ hfail
    · rw [if_neg hvp] at hfail ⊢
      exact ih _ hfail

theorem genF_fail_restore (cfg : GridConfig) :
    ∀ (fuel : Nat) (g : Grid) (s : RNG), (genF cfg fuel g s).1 = false →
      (genF cfg fuel g s).2.1 = g := by
  intro fuel
  induction fuel with
  | zero => intro g s _; rfl
  | succ fuel ih =>
    intro g s hfail
    rw [genF] at hfail ⊢
    cases hfe : findEmptyCell cfg g with
    | none => rw [hfe] at hfail
    | some rc =>
      obtain ⟨r, c⟩ := rc
      rw [hfe] at hfail
      have hfail2 :
          (genTry cfg (genF cfg fuel) r c g
            (shuffleArray (List.range' 1 cfg.size) s).1
            (shuffleArray (List.range' 1 cfg.size) s).2).1 = false :=
        hfail
      show (genTry cfg (genF cfg fuel) r c g
        (shuffleArray (List.range' 1 cfg.size) s).1
        (shuffleArray (List.range' 1 cfg.size) s).2).2.1 = g
      exact genTry_fail_restore cfg ih (findEmptyCell_eq_some hfe).2.2 _ _ hfail2

/-! ## Multiplayer room state machine (`src/socket-server/server.ts`) -/

/-- Room codes as character lists (JS strings). -/
abbrev RoomCode := List Char

inductive RStatus
  | waiting
  | ready
  | playing
  | completed
deriving DecidableEq, Repr

/-- `Player` (`server.ts`). -/
structure Player where
  socketId : String
  playerName : String
  isReady : Bool
  progress : Int
deriving DecidableEq, Repr

/-- `Room` (`server.ts`). -/
structure Room where
  roomCode : RoomCode
  host : Option Player
  guest : Option Player
  difficulty : String
  gridSize : Nat
  puzzleId : String
  status : RStatus
  isPaused : Bool
  pauseRequests : List String
deriving DecidableEq, Repr

/-- The in-memory registry `rooms : Map<string, Room>`, as an association
list with `Map` get/set/delete semantics. -/
abbrev RoomMap := List (RoomCode × Room)

def roomsGet (rooms : RoomMap) (code : RoomCode) : Option Room :=
  match rooms with
  | [] => none
  | e :: rest => if e.1 = code then some e.2 else roomsGet rest code

/-- `Map.set`: replace the entry if the key is present, else append. -/
def roomsSet (rooms : RoomMap) (code : RoomCode) (room : Room) : RoomMap :=
  match rooms with
  | [] => [(code, room)]
  | e :: rest => if e.1 = code then (code, room) :: rest else e :: roomsSet rest code room

/-- `Map.delete`. -/
def roomsDelete (rooms : RoomMap) (code : RoomCode) : RoomMap :=
  rooms.filter fun e => !(e.1 == code)

/-- `Map.has`. -/
def roomsHas (rooms : RoomMap) (code : RoomCode) : Bool :=
  (roomsGet rooms code).isSome

theorem roomsGet_roomsSet_self (rooms : RoomMap) (code : RoomCode) (room : Room) :
    roomsGet (roomsSet rooms code room) code = some room := by
  induction rooms with
  | nil => simp [roomsSet, roomsGet]
  | cons e rest ih =>
    rw [roomsSet]
    by_cases he : e.1 = code
    · rw [if_pos he, roomsGet, if_pos rfl]
    · rw [if_neg he, roomsGet, if_neg he]
      exact ih

theorem roomsGet_roomsDelete_self (rooms : RoomMap) (code : RoomCode) :
    roomsGet (roomsDelete rooms code) code = none := by
  induction rooms with
  | nil => rfl
  | cons e rest ih =>
    rw [roomsDelete, List.filter]
    by_cases he : e.1 = code
    · rw [show (!(e.1 == code)) = false by simp [he]]
      exact ih
    · rw [show (!(e.1 == code)) = true by simp [he]]
      rw [roomsGet, if_neg he]
      exact ih

/-- `generateRoomCode`'s alphabet:
`'ABCDEFGHJKLMNPQRSTUVWXYZ23456789'`. -/
def roomCodeChars : List Char := "ABCDEFGHJKLMNPQRSTUVWXYZ23456789".toList

/-- The 6-iteration loop of `generateRoomCode`, drawing
`chars.charAt(Math.floor(Math.random() * chars.length))` each round. -/
def generateRoomCodeGo : Nat → RoomCode → RNG → RoomCode × RNG
  | 0, code, s => (code, s)
  | n + 1, code, s =>
    generateRoomCodeGo n
      (code ++ [roomCodeChars.getD (rngHead s % roomCodeChars.length) 'A'])
      (rngTail s)

def generateRoomCode (s : RNG) : RoomCode × RNG := generateRoomCodeGo 6 [] s

/-- `getUniqueRoomCode`: regenerate while the code collides with the
registry.  The `while` loop carries fuel; a `some` result is a code the
loop accepted. -/
def getUniqueRoomCode (rooms : RoomMap) : Nat → RNG → Option (RoomCode × RNG)
  | 0, _ => none
  | fuel + 1, s =>
    let cs := generateRoomCode s
    if roomsHas rooms cs.1 then getUniqueRoomCode rooms fuel cs.2 else some cs

inductive EmitTarget
  | requester
  | roomAll
  | roomOthers
deriving DecidableEq, Repr

inductive SEvent
  | errorMsg (message : String)
  | playerReadyUpdate (room : Room)
  | gameStarted (room : Room)
  | gameEnded (winner : String)
  | playerLeft (playerName : String)
deriving DecidableEq, Repr

/-- The fire-and-forget MongoDB writes of the handlers. -/
inductive DbWrite
  | completedResult (roomCode : RoomCode) (winnerName : String)
      (winnerTime winnerMistakes winnerHints : Int) (loserName : Option String)
  | abandonedResult (roomCode : RoomCode) (leftByPlayer : String)
      (winnerName : Option String)
deriving DecidableEq, Repr

structure HandlerOut where
  rooms : RoomMap
  emits : List (EmitTarget × SEvent)
  writes : List DbWrite
  scheduledDeletes : List RoomCode
deriving DecidableEq, Repr

/-- The `playerReady` handler: mark the caller ready (matched by player
name against host, else guest); if both are ready, set `status = ready` —
whatever the current status. -/
def playerReady (rooms : RoomMap) (roomCode : RoomCode) (playerName : String) :
    HandlerOut :=
  match roomsGet rooms roomCode with
  | none => ⟨rooms, [(.requester, .errorMsg "Room not found")], [], []⟩
  | some room =>
    let room1 :=
      if (room.host.map Player.playerName) = some playerName then
        { room with host := room.host.map fun h => { h with isReady := true } }
      else if (room.guest.map Player.playerName) = some playerName then
        { room with guest := room.guest.map fun gp => { gp with isReady := true } }
      else room
    let room2 :=
      if (room1.host.map Player.isReady).getD false &&
          (room1.guest.map Player.isReady).getD false then
        { room1 with status := .ready }
      else room1
    ⟨roomsSet rooms roomCode room2, [(.roomAll, .playerReadyUpdate room2)], [], []⟩

/-- The `startGame` handler: error when the room is missing or not
`ready`; otherwise flip to `playing`.  The payload carries only the room
code — the handler never checks who the requester is. -/
def startGame (rooms : RoomMap) (roomCode : RoomCode) : HandlerOut :=
  match roomsGet rooms roomCode with
  | none => ⟨rooms, [(.requester, .errorMsg "Room not found")], [], []⟩
  | some room =>
    if room.status ≠ .ready then
      ⟨rooms, [(.requester, .errorMsg "Both players must be ready")], [], []⟩
    else
      let room2 := { room with status := .playing }
      ⟨roomsSet rooms roomCode room2, [(.roomAll, .gameStarted room2)], [], []⟩

/-- The `gameComplete` handler: unconditionally set `status = completed`,
declare the caller the winner, broadcast `gameEnded`, persist the result
(upsert on the room code), and schedule the 30-second grace delete. -/
def gameComplete (rooms : RoomMap) (roomCode : RoomCode) (playerName : String)
    (timeSeconds mistakes hintsUsed : Int) : HandlerOut :=
  match roomsGet rooms roomCode with
  | none => ⟨rooms, [], [], []⟩
  | some room =>
    let room2 := { room with status := .completed }
    let winner := playerName
    let loser :=
      if (room.host.map Player.playerName) = some winner then
        room.guest.map Player.playerName
      else room.host.map Player.playerName
    ⟨roomsSet rooms roomCode room2,
     [(.roomAll, .gameEnded winner)],
     [.completedResult roomCode winner timeSeconds mistakes hintsUsed loser],
     [roomCode]⟩

/-- The `leaveRoom` handler: notify the other player; if the game was
`playing`, persist an abandoned result with the remaining player as
winner; remove the room iff the status is `waiting` or `playing`. -/
def leaveRoom (rooms : RoomMap) (roomCode : RoomCode) (playerName : String) :
    HandlerOut :=
  match roomsGet rooms roomCode with
  | none => ⟨rooms, [], [], []⟩
  | some room =>
    let emits := [(EmitTarget.roomOthers, SEvent.playerLeft playerName)]
    let writes :=
      if room.status = .playing then
        [DbWrite.abandonedResult roomCode playerName
          (if (room.host.map Player.playerName) = some playerName then
            room.guest.map Player.playerName
          else room.host.map Player.playerName)]
      else []
    let rooms2 :=
      if room.status = .waiting ∨ room.status = .playing then
        roomsDelete rooms roomCode
      else rooms
    ⟨rooms2, emits, writes, []⟩

/-! ## Room-code generation facts -/

theorem getD_mem_of_lt {α} (l : List α) (i : Nat) (d : α) (h : i < l.length) :
    l.getD i d ∈ l := by
  rw [List.getD_eq_getElem?_getD, List.getElem?_eq_getElem h]
  exact List.getElem_mem h

theorem generateRoomCodeGo_length :
    ∀ (n : Nat) (code : RoomCode) (s : RNG),
      (generateRoomCodeGo n code s).1.length = code.length + n := by
  intro n
  induction n with
  | zero => intro code s; rfl
  | succ n ih =>
    intro code s
    rw [generateRoomCodeGo, ih]
    rw [List.length_append]
    simp
    omega

theorem generateRoomCodeGo_mem :
    ∀ (n : Nat) (code : RoomCode) (s : RNG) (ch : Char),
      ch ∈ (generateRoomCodeGo n code s).1 → ch ∈ code ∨ ch ∈ roomCodeChars := by
  intro n
  induction n with
  | zero => intro code s ch h; exact Or.inl h
  | succ n ih =>
    intro code s ch h
    rw [generateRoomCodeGo] at h
    rcases ih _ _ _ h with h2 | h2
    · rcases List.mem_append.1 h2 with h3 | h3
      · exact Or.inl h3
      · right
        have hch : ch = roomCodeChars.getD (rngHead s % roomCodeChars.length) 'A' := by
          simpa using h3
        rw [hch]
        apply getD_mem_of_lt
        apply Nat.mod_lt
        decide
    · exact Or.inr h2

theorem generateRoomCode_length (s : RNG) : (generateRoomCode s).1.length = 6 :=
  generateRoomCodeGo_length 6 [] s

theorem generateRoomCode_mem (s : RNG) :
    ∀ ch ∈ (generateRoomCode s).1, ch ∈ roomCodeChars := by
  intro ch h
  rcases generateRoomCodeGo_mem 6 [] s ch h with h2 | h2
  · exact absurd h2 (List.not_mem_nil ch)
  · exact h2

theorem getUniqueRoomCode_sound :
    ∀ (fuel : Nat) (rooms : RoomMap) (s : RNG) (code : RoomCode) (s2 : RNG),
      getUniqueRoomCode rooms fuel s = some (code, s2) →
      code.length = 6 ∧ (∀ ch ∈ code, ch ∈ roomCodeChars) ∧
        roomsHas rooms code = false := by
  intro fuel
  induction fuel with
  | zero => intro rooms s code s2 h; exact Option.noConfusion h
  | succ fuel ih =>
    intro rooms s code s2 h
    rw [getUniqueRoomCode] at h
    by_cases hhas : roomsHas rooms (generateRoomCode s).1 = true
    · rw [if_pos hhas] at h
      exact ih _ _ _ _ h
    · rw [if_neg hhas] at h
      have hcode : (generateRoomCode s).1 = code := congrArg Prod.fst (Option.some.inj h)
      refine ⟨hcode ▸ generateRoomCode_length s, hcode ▸ generateRoomCode_mem s, ?_⟩
      rw [← hcode]
      revert hhas
      cases roomsHas rooms (generateRoomCode s).1 <;> simp

/-! ## Concrete fixtures for the room state machine -/

def alice : Player := ⟨"s1", "Alice", true, 0⟩

def bob : Player := ⟨"s2", "Bob", true, 0⟩

def demoCode : RoomCode := ['A', 'B', 'C', '2', '3', '4']

def demoRoom (st : RStatus) : Room :=
  ⟨demoCode, some alice, some bob, "easy", 4, "p1", st, false, []⟩

def demoRooms (st : RStatus) : RoomMap := [(demoCode, demoRoom st)]

def zeroStream : RNG := fun _ => 0

/-! ## Claim theorems: room state machine and validator -/

/-- C3 (counterexample): on a `ready` room, a `startGame` request —
including one from the guest, since the handler never learns who the
requester is — emits no error and flips the status to `playing`, contrary
to the claim that a non-host request errors and leaves `status = ready`. -/
theorem sudoku_c3_counterexample :
    roomsGet (startGame (demoRooms .ready) demoCode).rooms demoCode =
      some { demoRoom .ready with status := .playing } ∧
    (startGame (demoRooms .ready) demoCode).emits =
      [(.roomAll, .gameStarted { demoRoom .ready with status := .playing })] := by
  constructor <;> rfl

/-- C3 (amended): `startGame` on a registered room errors (to the
requester only, mutating nothing) iff the status is not `ready`; on a
`ready` room it sets `status = playing` for any requester — the handler
performs no host check (host gating exists only in the client UI). -/
theorem sudoku_c3_startGame_no_host_check :
    ∀ (rooms : RoomMap) (code : RoomCode) (room : Room),
      roomsGet rooms code = some room →
      (room.status ≠ .ready →
        (startGame rooms code).rooms = rooms ∧
        (startGame rooms code).emits =
          [(.requester, .errorMsg "Both players must be ready")]) ∧
      (room.status = .ready →
        roomsGet (startGame rooms code).rooms code =
          some { room with status := .playing } ∧
        (startGame rooms code).emits =
          [(.roomAll, .gameStarted { room with status := .playing })]) := by
  intro rooms code room hroom
  have hsg : startGame rooms code =
      (if room.status ≠ RStatus.ready then
        (⟨rooms, [(.requester, .errorMsg "Both players must be ready")], [], []⟩ :
          HandlerOut)
      else
        ⟨roomsSet rooms code { room with status := .playing },
          [(.roomAll, .gameStarted { room with status := .playing })], [], []⟩) := by
    unfold startGame
    rw [hroom]
  rw [hsg]
  constructor
  · intro hst
    rw [if_pos hst]
    exact ⟨rfl, rfl⟩
  · intro hst
    rw [if_neg (by rw [hst]; simp)]
    exact ⟨roomsGet_roomsSet_self _ _ _, rfl⟩

theorem sudoku_c3_startGame_no_host_check_witness :
    roomsGet (demoRooms .waiting) demoCode = some (demoRoom .waiting) ∧
    ((demoRoom .waiting).status ≠ .ready) ∧
    (startGame (demoRooms .waiting) demoCode).rooms = demoRooms .waiting ∧
    (startGame (demoRooms .waiting) demoCode).emits =
      [(.requester, .errorMsg "Both players must be ready")] := by
  refine ⟨rfl, by decide, ?_⟩
  exact (sudoku_c3_startGame_no_host_check (demoRooms .waiting) demoCode
    (demoRoom .waiting) rfl).1 (by decide)

def c4Out1 : HandlerOut := gameComplete (demoRooms .playing) demoCode "Alice" 100 0 0

def c4Out2 : HandlerOut := gameComplete c4Out1.rooms demoCode "Bob" 105 2 1

/-- C4: two `gameComplete` events in sequence on the same room.  The
first sets `status = completed` and records Alice as winner; the second,
processed while the room is already `completed`, re-broadcasts
`gameEnded` with Bob and re-persists the result with `winnerName = Bob`,
overwriting the recorded winner — the handler has no guard on an already
`completed` status. -/
theorem sudoku_c4_double_complete_overwrites :
    roomsGet c4Out1.rooms demoCode =
      some { demoRoom .playing with status := .completed } ∧
    c4Out1.emits = [(.roomAll, .gameEnded "Alice")] ∧
    c4Out1.writes = [.completedResult demoCode "Alice" 100 0 0 (some "Bob")] ∧
    c4Out2.emits = [(.roomAll, .gameEnded "Bob")] ∧
    c4Out2.writes = [.completedResult demoCode "Bob" 105 2 1 (some "Alice")] := by
  refine ⟨rfl, rfl, ?_, rfl, ?_⟩ <;> decide

/-- C5 (counterexample): a `leaveRoom` on a room whose status is `ready`
leaves the room in the registry — the claim says every non-`completed`
room is deleted. -/
theorem sudoku_c5_counterexample :
    roomsGet (leaveRoom (demoRooms .ready) demoCode "Bob").rooms demoCode =
      some (demoRoom .ready) := by
  rfl

/-- C5 (amended): `leaveRoom` deletes the room from the registry iff its
status is `waiting` or `playing`; rooms in `ready` or `completed` status
survive the handler (only the `disconnect` handler also deletes `ready`
rooms). -/
theorem sudoku_c5_leaveRoom_delete :
    ∀ (rooms : RoomMap) (code : RoomCode) (name : String) (room : Room),
      roomsGet rooms code = some room →
      ((room.status = .waiting ∨ room.status = .playing) →
        roomsGet (leaveRoom rooms code name).rooms code = none) ∧
      ((room.status = .ready ∨ room.status = .completed) →
        (leaveRoom rooms code name).rooms = rooms) := by
  intro rooms code name room hroom
  have hlv : (leaveRoom rooms code name).rooms =
      (if room.status = .waiting ∨ room.status = .playing then
        roomsDelete rooms code
      else rooms) := by
    unfold leaveRoom
    rw [hroom]
  rw [hlv]
  constructor
  · intro hst
    rw [if_pos hst]
    exact roomsGet_roomsDelete_self rooms code
  · intro hst
    rw [if_neg ?hn]
    case hn =>
      rcases hst with h | h <;> rw [h] <;> rintro (h2 | h2) <;>
        exact RStatus.noConfusion h2

theorem sudoku_c5_leaveRoom_delete_witness :
    roomsGet (demoRooms .playing) demoCode = some (demoRoom .playing) ∧
    roomsGet (leaveRoom (demoRooms .playing) demoCode "Bob").rooms demoCode = none := by
  refine ⟨rfl, ?_⟩
  exact (sudoku_c5_leaveRoom_delete (demoRooms .playing) demoCode "Bob"
    (demoRoom .playing) rfl).1 (Or.inr rfl)

/-- C6 (counterexample): the alphabet of `generateRoomCode` has 32
symbols, not 33. -/
theorem sudoku_c6_counterexample :
    roomCodeChars.length = 32 ∧ ¬(roomCodeChars.length = 33) := by
  decide

/-- C6 (amended): room codes are 6 characters over the 32-symbol alphabet
excluding `0`, `1`, `O`, `I`, and a returned code is absent from the
registry at return time. -/
theorem sudoku_c6_room_code_spec :
    roomCodeChars.length = 32 ∧
    ('0' ∉ roomCodeChars ∧ '1' ∉ roomCodeChars ∧
      'O' ∉ roomCodeChars ∧ 'I' ∉ roomCodeChars) ∧
    ∀ (rooms : RoomMap) (fuel : Nat) (s : RNG) (code : RoomCode) (s2 : RNG),
      getUniqueRoomCode rooms fuel s = some (code, s2) →
      code.length = 6 ∧ (∀ ch ∈ code, ch ∈ roomCodeChars) ∧
        roomsHas rooms code = false := by
  refine ⟨by decide, by decide, ?_⟩
  intro rooms fuel s code s2 h
  exact getUniqueRoomCode_sound fuel rooms s code s2 h

theorem sudoku_c6_room_code_spec_witness :
    ((generateRoomCode zeroStream).1.length = 6 ∧
      (∀ ch ∈ (generateRoomCode zeroStream).1, ch ∈ roomCodeChars) ∧
      roomsHas [] (generateRoomCode zeroStream).1 = false) :=
  sudoku_c6_room_code_spec.2.2 [] 1 zeroStream
    (generateRoomCode zeroStream).1 (generateRoomCode zeroStream).2 rfl

def c4cfg : GridConfig := ⟨4, 2, 2⟩

def gC7 : Grid := [[1, 0, 0, 0], [0, 0, 0, 0], [0, 0, 0, 0], [0, 0, 0, 0]]

/-- The claim's reading of the contract, from the spec's words: the value
appears nowhere **else** (the queried cell exempted) in the row, column
and box. -/
def nowhereElse (cfg : GridConfig) (g : Grid) (row col num : Nat) : Bool :=
  ((List.range cfg.size).all fun c2 =>
    (c2 == col) || !(cellOf g row c2 == some num)) &&
  (((List.range cfg.size).all fun r2 =>
    (r2 == row) || !(cellOf g r2 col == some num)) &&
  ((List.range cfg.boxRows).all fun dr =>
    (List.range cfg.boxCols).all fun dc =>
      ((boxStartRow cfg row + dr == row) && (boxStartCol cfg col + dc == col)) ||
      !(cellOf g (boxStartRow cfg row + dr) (boxStartCol cfg col + dc) == some num)))

/-- C7 (counterexample): with a `1` already at `(0,0)` of an otherwise
empty 4×4 grid, `1` occurs nowhere other than the queried cell, yet
`isValidPlacement(grid, 0, 0, 1)` returns `false` — the scan includes the
queried cell itself, falsifying the claimed iff. -/
theorem sudoku_c7_counterexample :
    nowhereElse c4cfg gC7 0 0 1 = true ∧
    isValidPlacement c4cfg gC7 0 0 1 = false := by
  decide

/-- C7 (amended): `isValidPlacement(grid, row, col, value)` returns true
iff `value` occurs at **no** scanned cell of the row, the column, or the
box of `(row, col)` — the cell `(row, col)` itself included, so a value
already present at the queried cell makes the placement invalid. -/
theorem sudoku_c7_placement_iff :
    ∀ (cfg : GridConfig) (g : Grid) (row col num : Nat),
      isValidPlacement cfg g row col num = true ↔
        (∀ c2, c2 < cfg.size → cellOf g row c2 ≠ some num) ∧
        (∀ r2, r2 < cfg.size → cellOf g r2 col ≠ some num) ∧
        (∀ dr dc, dr < cfg.boxRows → dc < cfg.boxCols →
          cellOf g (boxStartRow cfg row + dr) (boxStartCol cfg col + dc) ≠
            some num) :=
  fun _ _ _ _ _ => isValidPlacement_eq_true

/-- C8: `isValidGrid` restores every cell it temporarily zeroes — the
grid handed back by the state-passing embedding equals the input grid,
for every input; the remaining Validator operations read but never write
the grid, so every Validator operation is pure and deterministic. -/
theorem sudoku_c8_validator_frame :
    ∀ (cfg : GridConfig) (g : Grid), (isValidGridS cfg g).2 = g :=
  fun cfg g => isValidGridGo_restore cfg _ g

/-- C9: `countSolutions` works on a private copy (the caller-visible grid
comes back unchanged), and the helper itself undoes every placement —
any grid it receives is returned cell-for-cell equal. -/
theorem sudoku_c9_countSolutions_frame :
    ∀ (cfg : GridConfig) (fuel : Nat) (g : Grid) (limit : Nat),
      countSolutionsS cfg fuel g limit = (countSolutions cfg fuel g limit, g) ∧
      (countF cfg fuel g limit).2 = g :=
  fun cfg fuel g limit => ⟨rfl, countF_restore cfg fuel g limit⟩

/-- C10: whenever both players of a registered room have `isReady = true`,
a `playerReady` event — from either player, duplicated or late — sets the
room status to `ready` regardless of the status held before, reverting
even `playing` or `completed` rooms. -/
theorem sudoku_c10_ready_override :
    ∀ (rooms : RoomMap) (code : RoomCode) (name : String) (room : Room)
      (h gp : Player),
      roomsGet rooms code = some room →
      room.host = some h → h.isReady = true →
      room.guest = some gp → gp.isReady = true →
      roomsGet (playerReady rooms code name).rooms code ≠ none ∧
      ∀ room2, roomsGet (playerReady rooms code name).rooms code = some room2 →
        room2.status = .ready := by
  intro rooms code name room h gp hroom hhost hhr hguest hgr
  set room1 : Room :=
    (if (room.host.map Player.playerName) = some name then
      { room with host := room.host.map fun h => { h with isReady := true } }
    else if (room.guest.map Player.playerName) = some name then
      { room with guest := room.guest.map fun gp => { gp with isReady := true } }
    else room) with hroom1
  have hflags : room1.host.map Player.isReady = some true ∧
      room1.guest.map Player.isReady = some true := by
    rw [hroom1]
    by_cases hc1 : (room.host.map Player.playerName) = some name
    · rw [if_pos hc1]
      constructor
      · simp [hhost]
      · simp [hguest, hgr]
    · rw [if_neg hc1]
      by_cases hc2 : (room.guest.map Player.playerName) = some name
      · rw [if_pos hc2]
        constructor
        · simp [hhost, hhr]
        · simp [hguest]
      · rw [if_neg hc2]
        exact ⟨by simp [hhost, hhr], by simp [hguest, hgr]⟩
  set room2 : Room :=
    (if (room1.host.map Player.isReady).getD false &&
        (room1.guest.map Player.isReady).getD false then
      { room1 with status := .ready }
    else room1) with hroom2
  have hst : room2.status = .ready := by
    rw [hroom2, if_pos ?hcond]
    case hcond => rw [hflags.1, hflags.2]; rfl
  have hpr : (playerReady rooms code name).rooms = roomsSet rooms code room2 := by
    unfold playerReady
    rw [hroom]
  rw [hpr]
  constructor
  · rw [roomsGet_roomsSet_self]
    exact Option.noConfusion
  · intro room2x hr2x
    rw [roomsGet_roomsSet_self] at hr2x
    rw [← Option.some.inj hr2x]
    exact hst

theorem sudoku_c10_ready_override_witness :
    roomsGet (demoRooms .playing) demoCode = some (demoRoom .playing) ∧
    (demoRoom .playing).host = some alice ∧ alice.isReady = true ∧
    (demoRoom .playing).guest = some bob ∧ bob.isReady = true ∧
    (roomsGet (playerReady (demoRooms .playing) demoCode "Alice").rooms demoCode ≠
      none ∧
    ∀ room2,
      roomsGet (playerReady (demoRooms .playing) demoCode "Alice").rooms demoCode =
        some room2 → room2.status = .ready) :=
  ⟨rfl, rfl, rfl, rfl, rfl,
    sudoku_c10_ready_override (demoRooms .playing) demoCode "Alice"
      (demoRoom .playing) alice bob rfl rfl rfl rfl rfl⟩

/-! ## Completion predicates -/

/-- Every in-range cell holds a value `≤ size`. -/
def ValsLe (cfg : GridConfig) (g : Grid) : Prop :=
  ∀ r c v, r < cfg.size → c < cfg.size → cellOf g r c = some v → v ≤ cfg.size

/-- The invariant of every grid touched by the backtracking search. -/
def SearchInv (cfg : GridConfig) (g : Grid) : Prop :=
  Shaped cfg.size g ∧ Consistent cfg g ∧ ValsLe cfg g

/-- `s` is a completion of `g`: a shaped, full, consistent grid with
values in range that agrees with `g` on every non-zero in-range cell. -/
def Solves (cfg : GridConfig) (g s : Grid) : Prop :=
  Shaped cfg.size s ∧ FullI cfg s ∧ Consistent cfg s ∧ ValsLe cfg s ∧
    ∀ r c v, r < cfg.size → c < cfg.size → cellOf g r c = some v → v ≠ 0 →
      cellOf s r c = some v

/-- Every cell of `puzzle` equals the corresponding cell of `solution`
or has been zeroed. -/
def Agrees (puzzle solution : Grid) : Prop :=
  ∀ r c, cellOf puzzle r c = cellOf solution r c ∨ cellOf puzzle r c = some 0

theorem grid_ext {n : Nat} {g1 g2 : Grid} (h1 : Shaped n g1) (h2 : Shaped n g2)
    (h : ∀ r c, r < n → c < n → cellOf g1 r c = cellOf g2 r c) : g1 = g2 := by
  obtain ⟨hl1, hr1⟩ := h1
  obtain ⟨hl2, hr2⟩ := h2
  apply List.ext_getElem (by omega)
  intro r hra hrb
  apply List.ext_getElem
  · rw [hr1 _ (List.getElem_mem hra), hr2 _ (List.getElem_mem hrb)]
  · intro c hca hcb
    have hrn : r < n := by omega
    have hcn : c < n := by
      rw [hr1 _ (List.getElem_mem hra)] at hca; exact hca
    have := h r c hrn hcn
    unfold cellOf at this
    rw [List.getElem?_eq_getElem hra, List.getElem?_eq_getElem hrb] at this
    simp only [Option.some_bind] at this
    rw [List.getElem?_eq_getElem hca, List.getElem?_eq_getElem hcb] at this
    exact Option.some.inj this

theorem consistent_of_sub {cfg : GridConfig} {g s : Grid}
    (hcons : Consistent cfg s)
    (hsub : ∀ r c v, r < cfg.size → c < cfg.size → cellOf g r c = some v →
      v ≠ 0 → cellOf s r c = some v) :
    Consistent cfg g := by
  intro r1 c1 r2 c2 v h1 h2 h3 h4 hne hv hc1 hc2
  exact hcons r1 c1 r2 c2 v h1 h2 h3 h4 hne hv
    (hsub _ _ _ h1 h2 hc1 hv) (hsub _ _ _ h3 h4 hc2 hv)

theorem valsLe_of_sub {cfg : GridConfig} {g s : Grid}
    (hvals : ValsLe cfg s)
    (hsub : ∀ r c v, r < cfg.size → c < cfg.size → cellOf g r c = some v →
      v ≠ 0 → cellOf s r c = some v) :
    ValsLe cfg g := by
  intro r c v hr hc hcell
  by_cases hv : v = 0
  · omega
  · exact hvals r c v hr hc (hsub _ _ _ hr hc hcell hv)

theorem solves_setCell {cfg : GridConfig} {g s : Grid} {r c v : Nat}
    (hs : Solves cfg g s) (hcell : cellOf s r c = some v) :
    Solves cfg (setCell g r c v) s := by
  obtain ⟨h1, h2, h3, h4, h5⟩ := hs
  refine ⟨h1, h2, h3, h4, ?_⟩
  intro r2 c2 w hr2 hc2 hw hw0
  by_cases hp : r2 = r ∧ c2 = c
  · obtain ⟨rfl, rfl⟩ := hp
    cases hx : cellOf g r2 c2 with
    | none => rw [setCell_of_oob hx] at hw; exact h5 _ _ _ hr2 hc2 hw hw0
    | some u =>
      rw [cellOf_setCell_self hx] at hw
      rw [← Option.some.inj hw]
      exact hcell
  · rw [cellOf_setCell_ne hp] at hw
    exact h5 _ _ _ hr2 hc2 hw hw0

/-- The completion's value at an empty cell of `g` is always a valid
placement on `g`. -/
theorem placement_of_solves {cfg : GridConfig} {g s : Grid} {r c v : Nat}
    (hv : ValidConfig cfg) (hs : Solves cfg g s)
    (hr : r < cfg.size) (hc : c < cfg.size)
    (h0 : cellOf g r c = some 0) (hcell : cellOf s r c = some v) :
    isValidPlacement cfg g r c v = true := by
  obtain ⟨hsh, hfull, hcons, hvals, hsub⟩ := hs
  have hv0 : v ≠ 0 := by
    intro h; subst h; exact hfull r c hr hc hcell
  apply isValidPlacement_eq_true.2
  refine ⟨?_, ?_, ?_⟩
  · intro c2 hc2 hbad
    have hcc : ¬(c2 = c) := by
      intro h; subst h; rw [h0] at hbad; exact hv0 (Option.some.inj hbad).symm
    have hbs : cellOf s r c2 = some v := hsub _ _ _ hr hc2 hbad hv0
    exact hcons r c r c2 v hr hc hr hc2
      (by intro h; rw [Prod.mk.injEq] at h; exact hcc h.2.symm) hv0 hcell hbs
      (Or.inl rfl)
  · intro r2 hr2 hbad
    have hrr : ¬(r2 = r) := by
      intro h; subst h; rw [h0] at hbad; exact hv0 (Option.some.inj hbad).symm
    have hbs : cellOf s r2 c = some v := hsub _ _ _ hr2 hc hbad hv0
    exact hcons r c r2 c v hr hc hr2 hc
      (by intro h; rw [Prod.mk.injEq] at h; exact hrr h.1.symm) hv0 hcell hbs
      (Or.inr (Or.inl rfl))
  · intro dr dc hdr hdc hbad
    have hr2 : boxStartRow cfg r + dr < cfg.size := by
      have := boxStartRow_add_le hv hr
      omega
    have hc2 : boxStartCol cfg c + dc < cfg.size := by
      have := boxStartCol_add_le hv hc
      omega
    have hpp : ¬(boxStartRow cfg r + dr = r ∧ boxStartCol cfg c + dc = c) := by
      rintro ⟨hh1, hh2⟩
      rw [hh1, hh2, h0] at hbad
      exact hv0 (Option.some.inj hbad).symm
    have hbs : cellOf s (boxStartRow cfg r + dr) (boxStartCol cfg c + dc) = some v :=
      hsub _ _ _ hr2 hc2 hbad hv0
    exact hcons r c (boxStartRow cfg r + dr) (boxStartCol cfg c + dc) v
      hr hc hr2 hc2
      (by intro h; rw [Prod.mk.injEq] at h; exact hpp ⟨h.1.symm, h.2.symm⟩)
      hv0 hcell hbs
      (Or.inr (Or.inr ⟨(boxStartRow_of_window hv.1 hdr).symm,
        (boxStartCol_of_window hv.2.1 hdc).symm⟩))

theorem hasZeros_eq_false {g : Grid} (h : hasZeros g = false) :
    ∀ r c, cellOf g r c ≠ some 0 := by
  unfold hasZeros at h
  rw [List.any_eq_false] at h
  intro r c hcell
  obtain ⟨hr, hc, hval⟩ := cellOf_eq_some.1 hcell
  have hrow := h (g[r]) (List.getElem_mem hr)
  rw [Bool.not_eq_true, List.contains_eq_any_beq, List.any_eq_false] at hrow
  exact hrow 0 (hval ▸ List.getElem_mem hc) (by simp)

theorem findEmptyCell_eq_none_of {cfg : GridConfig} {g : Grid}
    (h : ∀ r c, r < cfg.size → c < cfg.size → cellOf g r c ≠ some 0) :
    findEmptyCell cfg g = none := by
  unfold findEmptyCell
  rw [List.findSome?_eq_none_iff]
  intro r hr
  rw [Option.map_eq_none', List.find?_eq_none]
  intro c hc
  simpa using h r c (List.mem_range.1 hr) (List.mem_range.1 hc)

theorem countEmptyCells_eq_zero {cfg : GridConfig} {g : Grid}
    (h : ∀ r c, r < cfg.size → c < cfg.size → cellOf g r c ≠ some 0) :
    countEmptyCells cfg g = 0 := by
  unfold countEmptyCells
  rw [List.countP_eq_zero]
  rintro ⟨r, c⟩ hmem
  have := mem_allPositions.1 hmem
  simpa using h r c this.1 this.2

/-! ## Solver: soundness and completeness -/

/-- Non-zero-cell inclusion between grids. -/
def SubOfN (g h : Grid) : Prop :=
  ∀ r c v, cellOf g r c = some v → v ≠ 0 → cellOf h r c = some v

theorem subOfN_refl (g : Grid) : SubOfN g g := fun _ _ _ h _ => h

theorem subOfN_trans {g1 g2 g3 : Grid} (h1 : SubOfN g1 g2) (h2 : SubOfN g2 g3) :
    SubOfN g1 g3 := fun r c v h hv => h2 r c v (h1 r c v h hv) hv

theorem subOfN_setCell_zero {g : Grid} {r c num : Nat}
    (h0 : cellOf g r c = some 0) : SubOfN g (setCell g r c num) := by
  intro r2 c2 v hcell hv
  by_cases hp : r2 = r ∧ c2 = c
  · obtain ⟨rfl, rfl⟩ := hp
    rw [h0] at hcell
    exact absurd (Option.some.inj hcell).symm hv
  · rw [cellOf_setCell_ne hp]
    exact hcell

theorem valsLe_setCell {cfg : GridConfig} {g : Grid} {r c num : Nat}
    (h : ValsLe cfg g) (hnum : num ≤ cfg.size) : ValsLe cfg (setCell g r c num) := by
  intro r2 c2 v hr2 hc2 hcell
  by_cases hp : r2 = r ∧ c2 = c
  · obtain ⟨rfl, rfl⟩ := hp
    cases hx : cellOf g r2 c2 with
    | none => rw [setCell_of_oob hx] at hcell; exact h _ _ _ hr2 hc2 hcell
    | some u =>
      rw [cellOf_setCell_self hx] at hcell
      rw [← Option.some.inj hcell]
      exact hnum
  · rw [cellOf_setCell_ne hp] at hcell
    exact h _ _ _ hr2 hc2 hcell

theorem searchInv_setCell {cfg : GridConfig} {g : Grid} {r c num : Nat}
    (hv : ValidConfig cfg) (hInv : SearchInv cfg g)
    (hr : r < cfg.size) (hc : c < cfg.size) (h0 : cellOf g r c = some 0)
    (hnum1 : 1 ≤ num) (hnum2 : num ≤ cfg.size)
    (hvp : isValidPlacement cfg g r c num = true) :
    SearchInv cfg (setCell g r c num) :=
  ⟨shaped_setCell hInv.1 r c num,
   consistent_setCell_place hv hInv.2.1 hr hc h0 (by omega) hvp,
   valsLe_setCell hInv.2.2 hnum2⟩

theorem mem_range_one {num n : Nat} :
    num ∈ List.range' 1 n ↔ 1 ≤ num ∧ num ≤ n := by
  rw [List.mem_range']
  constructor
  · rintro ⟨i, hi, rfl⟩; omega
  · rintro ⟨h1, h2⟩; exact ⟨num - 1, by omega, by omega⟩

theorem solveTry_complete (cfg : GridConfig) {F : Grid → Bool × Grid} {r c : Nat}
    (hFfail : ∀ g2, (F g2).1 = false → (F g2).2 = g2) {g : Grid}
    (h0 : cellOf g r c = some 0) :
    ∀ nums : List Nat,
      (∃ num ∈ nums, isValidPlacement cfg g r c num = true ∧
        (F (setCell g r c num)).1 = true) →
      (solveTry cfg F r c g nums).1 = true := by
  intro nums
  induction nums with
  | nil => rintro ⟨num, hmem, -⟩; exact absurd hmem (List.not_mem_nil num)
  | cons h rest ih =>
    rintro ⟨num, hmem, hvalid, hFt⟩
    rw [solveTry]
    by_cases hvp : isValidPlacement cfg g r c h = true
    · rw [if_pos hvp]
      by_cases hres : (F (setCell g r c h)).1 = true
      · rw [if_pos hres]
        exact hres
      · rw [if_neg hres]
        have hres2 : (F (setCell g r c h)).1 = false := by
          revert hres; cases (F (setCell g r c h)).1 <;> simp
        have hrestore : setCell (F (setCell g r c h)).2 r c 0 = g := by
          rw [hFfail _ hres2, setCell_setCell, setCell_same h0]
        rw [hrestore]
        apply ih
        refine ⟨num, ?_, hvalid, hFt⟩
        rcases List.mem_cons.1 hmem with rfl | hm
        · exact absurd hFt hres
        · exact hm
    · rw [if_neg hvp]
      apply ih
      refine ⟨num, ?_, hvalid, hFt⟩
      rcases List.mem_cons.1 hmem with rfl | hm
      · exact absurd hvalid hvp
      · exact hm

theorem solveF_complete (cfg : GridConfig) (hv : ValidConfig cfg) :
    ∀ (fuel : Nat) (g s : Grid), Solves cfg g s → Shaped cfg.size g →
      countEmptyCells cfg g < fuel → (solveF cfg fuel g).1 = true := by
  intro fuel
  induction fuel with
  | zero => intro g s _ _ hfe; omega
  | succ fuel ih =>
    intro g s hsol hsh hfe
    rw [solveF]
    cases hfec : findEmptyCell cfg g with
    | none => rfl
    | some rc =>
      obtain ⟨r, c⟩ := rc
      obtain ⟨hr, hc, h0⟩ := findEmptyCell_eq_some hfec
      obtain ⟨v, hvcell⟩ := shaped_cellOf hsol.1 hr hc
      have hv0 : v ≠ 0 := fun h => hsol.2.1 r c hr hc (h ▸ hvcell)
      have hvle : v ≤ cfg.size := hsol.2.2.2.1 r c v hr hc hvcell
      apply solveTry_complete cfg (solveF_fail_restore cfg fuel) h0
      refine ⟨v, mem_range_one.2 ⟨by omega, hvle⟩,
        placement_of_solves hv hsol hr hc h0 hvcell, ?_⟩
      apply ih (setCell g r c v) s (solves_setCell hsol hvcell)
        (shaped_setCell hsh r c v)
      have := @countEmptyCells_setCell_lt cfg g r c v hr hc h0 hv0
      omega

theorem solveTry_sound (cfg : GridConfig) (hv : ValidConfig cfg)
    {F : Grid → Bool × Grid} {r c : Nat}
    (hFsound : ∀ g2, SearchInv cfg g2 → (F g2).1 = true →
      SearchInv cfg (F g2).2 ∧ FullI cfg (F g2).2 ∧ SubOfN g2 (F g2).2)
    (hFfail : ∀ g2, (F g2).1 = false → (F g2).2 = g2)
    {g : Grid} (h0 : cellOf g r c = some 0) (hr : r < cfg.size)
    (hc : c < cfg.size) (hInv : SearchInv cfg g) :
    ∀ nums : List Nat, (∀ num ∈ nums, 1 ≤ num ∧ num ≤ cfg.size) →
      (solveTry cfg F r c g nums).1 = true →
      SearchInv cfg (solveTry cfg F r c g nums).2 ∧
        FullI cfg (solveTry cfg F r c g nums).2 ∧
        SubOfN g (solveTry cfg F r c g nums).2 := by
  intro nums
  induction nums with
  | nil => intro _ htrue; exact Bool.noConfusion htrue
  | cons num rest ih =>
    intro hbound htrue
    rw [solveTry] at htrue ⊢
    by_cases hvp : isValidPlacement cfg g r c num = true
    · rw [if_pos hvp] at htrue ⊢
      by_cases hres : (F (setCell g r c num)).1 = true
      · rw [if_pos hres] at htrue ⊢
        obtain ⟨hb1, hb2⟩ := hbound num (List.mem_cons_self _ _)
        have hInv2 : SearchInv cfg (setCell g r c num) :=
          searchInv_setCell hv hInv hr hc h0 hb1 hb2 hvp
        obtain ⟨ha, hb, hcsub⟩ := hFsound _ hInv2 hres
        exact ⟨ha, hb, subOfN_trans (subOfN_setCell_zero h0) hcsub⟩
      · rw [if_neg hres] at htrue ⊢
        have hres2 : (F (setCell g r c num)).1 = false := by
          revert hres; cases (F (setCell g r c num)).1 <;> simp
        have hrestore : setCell (F (setCell g r c num)).2 r c 0 = g := by
          rw [hFfail _ hres2, setCell_setCell, setCell_same h0]
        rw [hrestore] at htrue ⊢
        exact ih (fun n hn => hbound n (List.mem_cons_of_mem _ hn)) htrue
    · rw [if_neg hvp] at htrue ⊢
      exact ih (fun n hn => hbound n (List.mem_cons_of_mem _ hn)) htrue

theorem solveF_sound (cfg : GridConfig) (hv : ValidConfig cfg) :
    ∀ (fuel : Nat) (g : Grid), SearchInv cfg g → (solveF cfg fuel g).1 = true →
      SearchInv cfg (solveF cfg fuel g).2 ∧ FullI cfg (solveF cfg fuel g).2 ∧
        SubOfN g (solveF cfg fuel g).2 := by
  intro fuel
  induction fuel with
  | zero => intro g _ htrue; exact Bool.noConfusion htrue
  | succ fuel ih =>
    intro g hInv htrue
    rw [solveF] at htrue ⊢
    cases hfec : findEmptyCell cfg g with
    | none =>
      rw [hfec] at htrue
      refine ⟨hInv, ?_, subOfN_refl g⟩
      intro r c hr hc
      exact findEmptyCell_eq_none hfec r c hr hc
    | some rc =>
      obtain ⟨r, c⟩ := rc
      rw [hfec] at htrue
      obtain ⟨hr, hc, h0⟩ := findEmptyCell_eq_some hfec
      have htrue2 :
          (solveTry cfg (solveF cfg fuel) r c g (List.range' 1 cfg.size)).1 = true :=
        htrue
      have := solveTry_sound cfg hv ih (solveF_fail_restore cfg fuel) h0 hr hc hInv
        (List.range' 1 cfg.size) (fun n hn => mem_range_one.1 hn) htrue2
      exact this

/-! ## Counting: lower bounds -/

theorem countTry_ge (cfg : GridConfig) {F : Grid → Nat × Grid} {limit r c : Nat} :
    ∀ (nums : List Nat) (g : Grid) (count : Nat),
      count ≤ (countTry cfg F limit r c g nums count).1 := by
  intro nums
  induction nums with
  | nil => intro g count; exact Nat.le_refl count
  | cons num rest ih =>
    intro g count
    rw [countTry]
    by_cases hvp : isValidPlacement cfg g r c num = true
    · rw [if_pos hvp]
      by_cases hlim : limit ≤ count + (F (setCell g r c num)).1
      · rw [if_pos hlim]
        exact Nat.le_add_right _ _
      · rw [if_neg hlim]
        have := ih (setCell (F (setCell g r c num)).2 r c 0)
          (count + (F (setCell g r c num)).1)
        omega
    · rw [if_neg hvp]
      exact ih g count

theorem countTry_lb (cfg : GridConfig) {F : Grid → Nat × Grid} {limit r c : Nat}
    (hFr : ∀ g2, (F g2).2 = g2) {g : Grid} (h0 : cellOf g r c = some 0) :
    ∀ (nums : List Nat) (count num : Nat), num ∈ nums →
      isValidPlacement cfg g r c num = true →
      min limit (count + (F (setCell g r c num)).1) ≤
        (countTry cfg F limit r c g nums count).1 := by
  intro nums
  induction nums with
  | nil => intro count num hmem; exact absurd hmem (List.not_mem_nil num)
  | cons h rest ih =>
    intro count num hmem hvalid
    rw [countTry]
    by_cases hvph : isValidPlacement cfg g r c h = true
    · rw [if_pos hvph]
      have hrestore : setCell (F (setCell g r c h)).2 r c 0 = g := by
        rw [hFr _, setCell_setCell, setCell_same h0]
      rcases List.mem_cons.1 hmem with rfl | hm
      · by_cases hlim : limit ≤ count + (F (setCell g r c num)).1
        · rw [if_pos hlim]
          exact Nat.min_le_right _ _
        · rw [if_neg hlim]
          have := @countTry_ge cfg F limit r c
            rest (setCell (F (setCell g r c num)).2 r c 0)
            (count + (F (setCell g r c num)).1)
          omega
      · by_cases hlim : limit ≤ count + (F (setCell g r c h)).1
        · rw [if_pos hlim]
          omega
        · rw [if_neg hlim, hrestore]
          have := ih (count + (F (setCell g r c h)).1) num hm hvalid
          omega
    · rw [if_neg hvph]
      rcases List.mem_cons.1 hmem with rfl | hm
      · exact absurd hvalid hvph
      · exact ih count num hm hvalid

theorem countTry_lb2 (cfg : GridConfig) {F : Grid → Nat × Grid} {limit r c : Nat}
    (hFr : ∀ g2, (F g2).2 = g2) {g : Grid} (h0 : cellOf g r c = some 0) :
    ∀ (nums : List Nat) (count n1 n2 : Nat), n1 ≠ n2 → n1 ∈ nums → n2 ∈ nums →
      isValidPlacement cfg g r c n1 = true →
      isValidPlacement cfg g r c n2 = true →
      1 ≤ (F (setCell g r c n1)).1 → 1 ≤ (F (setCell g r c n2)).1 →
      min limit (count + 2) ≤ (countTry cfg F limit r c g nums count).1 := by
  intro nums
  induction nums with
  | nil => intro count n1 n2 _ hmem; exact absurd hmem (List.not_mem_nil n1)
  | cons h rest ih =>
    intro count n1 n2 hne hm1 hm2 hv1 hv2 hb1 hb2
    rw [countTry]
    by_cases hvph : isValidPlacement cfg g r c h = true
    · rw [if_pos hvph]
      have hrestore : setCell (F (setCell g r c h)).2 r c 0 = g := by
        rw [hFr _, setCell_setCell, setCell_same h0]
      by_cases hlim : limit ≤ count + (F (setCell g r c h)).1
      · rw [if_pos hlim]
        omega
      · rw [if_neg hlim, hrestore]
        by_cases hh1 : h = n1
        · subst hh1
          have hm2r : n2 ∈ rest := by
            rcases List.mem_cons.1 hm2 with heq | hm
            · exact absurd heq.symm hne
            · exact hm
          have := @countTry_lb cfg F limit r c hFr g h0 rest
            (count + (F (setCell g r c h)).1) n2 hm2r hv2
          omega
        · by_cases hh2 : h = n2
          · subst hh2
            have hm1r : n1 ∈ rest := by
              rcases List.mem_cons.1 hm1 with heq | hm
              · exact absurd heq hne
              · exact hm
            have := @countTry_lb cfg F limit r c hFr g h0 rest
              (count + (F (setCell g r c h)).1) n1 hm1r hv1
            omega
          · have hm1r : n1 ∈ rest := by
              rcases List.mem_cons.1 hm1 with heq | hm
              · exact absurd heq.symm hh1
              · exact hm
            have hm2r : n2 ∈ rest := by
              rcases List.mem_cons.1 hm2 with heq | hm
              · exact absurd heq.symm hh2
              · exact hm
            have := ih (count + (F (setCell g r c h)).1) n1 n2 hne hm1r hm2r
              hv1 hv2 hb1 hb2
            omega
    · rw [if_neg hvph]
      have hm1r : n1 ∈ rest := by
        rcases List.mem_cons.1 hm1 with heq | hm
        · subst heq; exact absurd hv1 hvph
        · exact hm
      have hm2r : n2 ∈ rest := by
        rcases List.mem_cons.1 hm2 with heq | hm
        · subst heq; exact absurd hv2 hvph
        · exact hm
      exact ih count n1 n2 hne hm1r hm2r hv1 hv2 hb1 hb2

theorem countF_ge_one (cfg : GridConfig) (hv : ValidConfig cfg) :
    ∀ (fuel : Nat) (g s : Grid) (limit : Nat), Solves cfg g s →
      Shaped cfg.size g → countEmptyCells cfg g < fuel → 1 ≤ limit →
      1 ≤ (countF cfg fuel g limit).1 := by
  intro fuel
  induction fuel with
  | zero => intro g s limit _ _ hfe _; omega
  | succ fuel ih =>
    intro g s limit hsol hsh hfe hlim
    rw [countF]
    cases hfec : findEmptyCell cfg g with
    | none => exact Nat.le_refl 1
    | some rc =>
      obtain ⟨r, c⟩ := rc
      obtain ⟨hr, hc, h0⟩ := findEmptyCell_eq_some hfec
      obtain ⟨v, hvcell⟩ := shaped_cellOf hsol.1 hr hc
      have hv0 : v ≠ 0 := fun h => hsol.2.1 r c hr hc (h ▸ hvcell)
      have hvle : v ≤ cfg.size := hsol.2.2.2.1 r c v hr hc hvcell
      have hchild : 1 ≤ (countF cfg fuel (setCell g r c v) limit).1 := by
        apply ih (setCell g r c v) s limit (solves_setCell hsol hvcell)
          (shaped_setCell hsh r c v) ?_ hlim
        have := @countEmptyCells_setCell_lt cfg g r c v hr hc h0 hv0
        omega
      have hlb : min limit (0 + (countF cfg fuel (setCell g r c v) limit).1) ≤
          (countTry cfg (fun g2 => countF cfg fuel g2 limit) limit r c g
            (List.range' 1 cfg.size) 0).1 :=
        @countTry_lb cfg (fun g2 => countF cfg fuel g2 limit) limit r c
          (fun g2 => countF_restore cfg fuel g2 limit) g h0
          (List.range' 1 cfg.size) 0 v (mem_range_one.2 ⟨by omega, hvle⟩)
          (placement_of_solves hv hsol hr hc h0 hvcell)
      show 1 ≤ (countTry cfg (fun g2 => countF cfg fuel g2 limit) limit r c g
        (List.range' 1 cfg.size) 0).1
      omega

theorem countF_ge_two (cfg : GridConfig) (hv : ValidConfig cfg) :
    ∀ (fuel : Nat) (g s1 s2 : Grid) (limit : Nat), Solves cfg g s1 →
      Solves cfg g s2 → s1 ≠ s2 → Shaped cfg.size g →
      countEmptyCells cfg g < fuel → 1 ≤ limit →
      min limit 2 ≤ (countF cfg fuel g limit).1 := by
  intro fuel
  induction fuel with
  | zero => intro g s1 s2 limit _ _ _ _ hfe _; omega
  | succ fuel ih =>
    intro g s1 s2 limit hs1 hs2 hne hsh hfe hlim
    rw [countF]
    cases hfec : findEmptyCell cfg g with
    | none =>
      exfalso
      apply hne
      apply grid_ext hs1.1 hs2.1
      intro r c hr hc
      obtain ⟨v, hvcell⟩ := shaped_cellOf hsh hr hc
      have hv0 : v ≠ 0 := by
        intro h
        exact findEmptyCell_eq_none hfec r c hr hc (h ▸ hvcell)
      rw [hs1.2.2.2.2 r c v hr hc hvcell hv0, hs2.2.2.2.2 r c v hr hc hvcell hv0]
    | some rc =>
      obtain ⟨r, c⟩ := rc
      obtain ⟨hr, hc, h0⟩ := findEmptyCell_eq_some hfec
      obtain ⟨v1, hv1cell⟩ := shaped_cellOf hs1.1 hr hc
      obtain ⟨v2, hv2cell⟩ := shaped_cellOf hs2.1 hr hc
      have hv10 : v1 ≠ 0 := fun h => hs1.2.1 r c hr hc (h ▸ hv1cell)
      have hv20 : v2 ≠ 0 := fun h => hs2.2.1 r c hr hc (h ▸ hv2cell)
      have hv1le : v1 ≤ cfg.size := hs1.2.2.2.1 r c v1 hr hc hv1cell
      have hv2le : v2 ≤ cfg.size := hs2.2.2.2.1 r c v2 hr hc hv2cell
      have hwidth : countEmptyCells cfg (setCell g r c v1) < fuel := by
        have := @countEmptyCells_setCell_lt cfg g r c v1 hr hc h0 hv10
        omega
      by_cases hvv : v1 = v2
      · subst hvv
        have hchild : min limit 2 ≤ (countF cfg fuel (setCell g r c v1) limit).1 := by
          apply ih (setCell g r c v1) s1 s2 limit (solves_setCell hs1 hv1cell)
            (solves_setCell hs2 hv2cell) hne (shaped_setCell hsh r c v1) hwidth hlim
        have hlb : min limit (0 + (countF cfg fuel (setCell g r c v1) limit).1) ≤
            (countTry cfg (fun g2 => countF cfg fuel g2 limit) limit r c g
              (List.range' 1 cfg.size) 0).1 :=
          @countTry_lb cfg (fun g2 => countF cfg fuel g2 limit) limit r c
            (fun g2 => countF_restore cfg fuel g2 limit) g h0
            (List.range' 1 cfg.size) 0 v1 (mem_range_one.2 ⟨by omega, hv1le⟩)
            (placement_of_solves hv hs1 hr hc h0 hv1cell)
        show min limit 2 ≤ (countTry cfg (fun g2 => countF cfg fuel g2 limit)
          limit r c g (List.range' 1 cfg.size) 0).1
        omega
      · have hb1 : 1 ≤ (countF cfg fuel (setCell g r c v1) limit).1 := by
          apply countF_ge_one cfg hv fuel (setCell g r c v1) s1 limit
            (solves_setCell hs1 hv1cell) (shaped_setCell hsh r c v1) hwidth hlim
        have hb2 : 1 ≤ (countF cfg fuel (setCell g r c v2) limit).1 := by
          apply countF_ge_one cfg hv fuel (setCell g r c v2) s2 limit
            (solves_setCell hs2 hv2cell) (shaped_setCell hsh r c v2) ?_ hlim
          have := @countEmptyCells_setCell_lt cfg g r c v2 hr hc h0 hv20
          omega
        have hlb : min limit (0 + 2) ≤
            (countTry cfg (fun g2 => countF cfg fuel g2 limit) limit r c g
              (List.range' 1 cfg.size) 0).1 :=
          @countTry_lb2 cfg (fun g2 => countF cfg fuel g2 limit) limit r c
            (fun g2 => countF_restore cfg fuel g2 limit) g h0
            (List.range' 1 cfg.size) 0 v1 v2 hvv
            (mem_range_one.2 ⟨by omega, hv1le⟩) (mem_range_one.2 ⟨by omega, hv2le⟩)
            (placement_of_solves hv hs1 hr hc h0 hv1cell)
            (placement_of_solves hv hs2 hr hc h0 hv2cell) hb1 hb2
        show min limit 2 ≤ (countTry cfg (fun g2 => countF cfg fuel g2 limit)
          limit r c g (List.range' 1 cfg.size) 0).1
        omega

/-- The core of the round-trip: on a grid with a completion and a unique
solution count, `solve` succeeds and produces exactly that completion. -/
theorem solve_unique (cfg : GridConfig) (hv : ValidConfig cfg) {g s : Grid}
    {sFuel cFuel : Nat} (hsol : Solves cfg g s) (hsh : Shaped cfg.size g)
    (hsf : countEmptyCells cfg g < sFuel) (hcf : countEmptyCells cfg g < cFuel)
    (hcount : (countF cfg cFuel g 2).1 = 1) :
    solveF cfg sFuel g = (true, s) := by
  have htrue := solveF_complete cfg hv sFuel g s hsol hsh hsf
  have hInv : SearchInv cfg g :=
    ⟨hsh, consistent_of_sub hsol.2.2.1 hsol.2.2.2.2,
      valsLe_of_sub hsol.2.2.2.1 hsol.2.2.2.2⟩
  obtain ⟨hInv2, hFull2, hSub2⟩ := solveF_sound cfg hv sFuel g hInv htrue
  have hsol2 : Solves cfg g (solveF cfg sFuel g).2 :=
    ⟨hInv2.1, hFull2, hInv2.2.1, hInv2.2.2,
      fun r c v _ _ hcell hv0 => hSub2 r c v hcell hv0⟩
  by_cases heq : (solveF cfg sFuel g).2 = s
  · calc solveF cfg sFuel g = ((solveF cfg sFuel g).1, (solveF cfg sFuel g).2) := rfl
      _ = (true, s) := by rw [htrue, heq]
  · exfalso
    have := countF_ge_two cfg hv cFuel g (solveF cfg sFuel g).2 s 2 hsol2 hsol
      heq hsh hcf (by omega)
    rw [hcount] at this
    omega

/-! ## Generator: the empty grid and `generateCompletedGrid` -/

theorem shaped_createEmptyGrid (cfg : GridConfig) :
    Shaped cfg.size (createEmptyGrid cfg) := by
  constructor
  · unfold createEmptyGrid; simp
  · intro row hmem
    unfold createEmptyGrid at hmem
    rw [List.eq_of_mem_replicate hmem]
    simp

theorem cellOf_createEmptyGrid {cfg : GridConfig} {r c v : Nat}
    (h : cellOf (createEmptyGrid cfg) r c = some v) : v = 0 := by
  obtain ⟨hr, hc, hval⟩ := cellOf_eq_some.1 h
  unfold createEmptyGrid at hval
  simp only [List.getElem_replicate] at hval
  exact hval.symm

theorem consistent_createEmptyGrid (cfg : GridConfig) :
    Consistent cfg (createEmptyGrid cfg) := by
  intro r1 c1 r2 c2 v _ _ _ _ _ hv hc1 _
  exact absurd (cellOf_createEmptyGrid hc1) hv

theorem valsLe_createEmptyGrid (cfg : GridConfig) :
    ValsLe cfg (createEmptyGrid cfg) := by
  intro r c v _ _ hcell
  rw [cellOf_createEmptyGrid hcell]
  omega

theorem genTry_sound (cfg : GridConfig) (hv : ValidConfig cfg)
    {F : Grid → RNG → Bool × Grid × RNG} {r c : Nat}
    (hFsound : ∀ g2 s2, SearchInv cfg g2 → (F g2 s2).1 = true →
      SearchInv cfg (F g2 s2).2.1 ∧ FullI cfg (F g2 s2).2.1)
    (hFfail : ∀ g2 s2, (F g2 s2).1 = false → (F g2 s2).2.1 = g2)
    {g : Grid} (h0 : cellOf g r c = some 0) (hr : r < cfg.size)
    (hc : c < cfg.size) (hInv : SearchInv cfg g) :
    ∀ (nums : List Nat) (s : RNG), (∀ num ∈ nums, 1 ≤ num ∧ num ≤ cfg.size) →
      (genTry cfg F r c g nums s).1 = true →
      SearchInv cfg (genTry cfg F r c g nums s).2.1 ∧
        FullI cfg (genTry cfg F r c g nums s).2.1 := by
  intro nums
  induction nums with
  | nil => intro s _ htrue; exact Bool.noConfusion htrue
  | cons num rest ih =>
    intro s hbound htrue
    rw [genTry] at htrue ⊢
    by_cases hvp : isValidPlacement cfg g r c num = true
    · rw [if_pos hvp] at htrue ⊢
      by_cases hres : (F (setCell g r c num) s).1 = true
      · rw [if_pos hres] at htrue ⊢
        obtain ⟨hb1, hb2⟩ := hbound num (List.mem_cons_self _ _)
        exact hFsound _ _ (searchInv_setCell hv hInv hr hc h0 hb1 hb2 hvp) hres
      · rw [if_neg hres] at htrue ⊢
        have hres2 : (F (setCell g r c num) s).1 = false := by
          revert hres; cases (F (setCell g r c num) s).1 <;> simp
        have hrestore : setCell (F (setCell g r c num) s).2.1 r c 0 = g := by
          rw [hFfail _ _ hres2, setCell_setCell, setCell_same h0]
        rw [hrestore] at htrue ⊢
        exact ih _ (fun n hn => hbound n (List.mem_cons_of_mem _ hn)) htrue
    · rw [if_neg hvp] at htrue ⊢
      exact ih _ (fun n hn => hbound n (List.mem_cons_of_mem _ hn)) htrue

theorem genF_sound (cfg : GridConfig) (hv : ValidConfig cfg) :
    ∀ (fuel : Nat) (g : Grid) (s : RNG), SearchInv cfg g →
      (genF cfg fuel g s).1 = true →
      SearchInv cfg (genF cfg fuel g s).2.1 ∧ FullI cfg (genF cfg fuel g s).2.1 := by
  intro fuel
  induction fuel with
  | zero => intro g s _ htrue; exact Bool.noConfusion htrue
  | succ fuel ih =>
    intro g s hInv htrue
    rw [genF] at htrue ⊢
    cases hfec : findEmptyCell cfg g with
    | none =>
      rw [hfec] at htrue
      refine ⟨hInv, ?_⟩
      intro r c hr hc
      exact findEmptyCell_eq_none hfec r c hr hc
    | some rc =>
      obtain ⟨r, c⟩ := rc
      rw [hfec] at htrue
      obtain ⟨hr, hc, h0⟩ := findEmptyCell_eq_some hfec
      have hbound : ∀ num ∈ (shuffleArray (List.range' 1 cfg.size) s).1,
          1 ≤ num ∧ num ≤ cfg.size := by
        intro num hmem
        exact mem_range_one.1 ((shuffleArray_perm _ s).mem_iff.1 hmem)
      exact genTry_sound cfg hv ih (genF_fail_restore cfg fuel) h0 hr hc hInv
        _ _ hbound htrue

/-! ## `fillBox`: write characterization -/

theorem mem_boxOffsets {cfg : GridConfig} {p : Nat × Nat} :
    p ∈ boxOffsets cfg ↔ p.1 < cfg.boxRows ∧ p.2 < cfg.boxCols := by
  unfold boxOffsets
  rw [List.mem_flatMap]
  constructor
  · rintro ⟨r, hr, hmem⟩
    obtain ⟨c, hc, rfl⟩ := List.mem_map.1 hmem
    exact ⟨List.mem_range.1 hr, List.mem_range.1 hc⟩
  · rintro ⟨h1, h2⟩
    exact ⟨p.1, List.mem_range.2 h1,
      List.mem_map.2 ⟨p.2, List.mem_range.2 h2, rfl⟩⟩

theorem nodup_boxOffsets (cfg : GridConfig) : (boxOffsets cfg).Nodup := by
  unfold boxOffsets
  rw [List.nodup_flatMap]
  constructor
  · intro r hr
    exact List.Nodup.map (fun a b hab => by simpa using congrArg Prod.snd hab)
      (List.nodup_range _)
  · rw [List.pairwise_iff_forall_sublist]
    intro a b hsub
    have hab : a ≠ b := by
      intro h; subst h
      exact absurd (List.Sublist.nodup hsub (List.nodup_range _)) (by simp)
    intro p hpa hpb
    obtain ⟨c1, -, rfl⟩ := List.mem_map.1 hpa
    obtain ⟨c2, -, heq⟩ := List.mem_map.1 hpb
    exact hab (congrArg Prod.fst heq).symm

theorem length_boxOffsets (cfg : GridConfig) :
    (boxOffsets cfg).length = cfg.boxRows * cfg.boxCols := by
  unfold boxOffsets
  rw [List.length_flatMap]
  simp only [Function.comp_def, List.length_map, List.length_range]
  rw [List.map_const', List.length_range, List.sum_const_nat]

theorem zip_pairwise_of_nodup {α β} :
    ∀ {l1 : List α} {l2 : List β}, l1.Nodup → l2.Nodup →
      (l1.zip l2).Pairwise (fun a b => a.1 ≠ b.1 ∧ a.2 ≠ b.2) := by
  intro l1
  induction l1 with
  | nil => intro l2 _ _; simp
  | cons h1 t1 ih =>
    intro l2 hn1 hn2
    cases l2 with
    | nil => simp
    | cons h2 t2 =>
      obtain ⟨hh1, ht1⟩ := List.nodup_cons.1 hn1
      obtain ⟨hh2, ht2⟩ := List.nodup_cons.1 hn2
      rw [List.zip_cons_cons, List.pairwise_cons]
      constructor
      · intro pv hpv
        obtain ⟨p1, p2⟩ := pv
        obtain ⟨hm1, hm2⟩ := List.of_mem_zip hpv
        constructor
        · intro h
          have h2x : h1 = p1 := h
          rw [h2x] at hh1
          exact hh1 hm1
        · intro h
          have h2x : h2 = p2 := h
          rw [h2x] at hh2
          exact hh2 hm2
      · exact ih ht1 ht2

theorem mem_zip_of_mem_left {α β} :
    ∀ {l1 : List α} {l2 : List β} {a : α}, a ∈ l1 → l1.length = l2.length →
      ∃ v, (a, v) ∈ l1.zip l2 := by
  intro l1
  induction l1 with
  | nil => intro l2 a hmem; exact absurd hmem (List.not_mem_nil a)
  | cons h1 t1 ih =>
    intro l2 a hmem hlen
    cases l2 with
    | nil => simp at hlen
    | cons h2 t2 =>
      rcases List.mem_cons.1 hmem with rfl | hm
      · exact ⟨h2, List.mem_cons_self _ _⟩
      · obtain ⟨v, hv⟩ := ih hm (by simpa using hlen)
        exact ⟨v, List.mem_cons_of_mem _ hv⟩

/-- Cells untouched by the write fold keep their value. -/
theorem foldl_setCell_untouched (sr sc : Nat) :
    ∀ (L : List ((Nat × Nat) × Nat)) (g : Grid) (r2 c2 : Nat),
      (∀ pv ∈ L, ¬(r2 = sr + pv.1.1 ∧ c2 = sc + pv.1.2)) →
      cellOf (L.foldl (fun acc pv => setCell acc (sr + pv.1.1) (sc + pv.1.2) pv.2) g)
        r2 c2 = cellOf g r2 c2 := by
  intro L
  induction L with
  | nil => intro g r2 c2 _; rfl
  | cons pv rest ih =>
    intro g r2 c2 hnone
    rw [List.foldl_cons]
    rw [ih _ _ _ (fun qv hqv => hnone qv (List.mem_cons_of_mem _ hqv))]
    exact cellOf_setCell_ne (hnone pv (List.mem_cons_self _ _))

theorem foldl_setCell_shaped (sr sc : Nat) {n : Nat} :
    ∀ (L : List ((Nat × Nat) × Nat)) (g : Grid), Shaped n g →
      Shaped n (L.foldl (fun acc pv => setCell acc (sr + pv.1.1) (sc + pv.1.2) pv.2) g) := by
  intro L
  induction L with
  | nil => intro g hsh; exact hsh
  | cons pv rest ih =>
    intro g hsh
    rw [List.foldl_cons]
    exact ih _ (shaped_setCell hsh _ _ _)

/-- The cell targeted by a pair of the write fold ends up holding that
pair's value, when the targets are pairwise distinct and in range. -/
theorem foldl_setCell_hit (sr sc : Nat) {n : Nat} :
    ∀ (L : List ((Nat × Nat) × Nat)) (g : Grid) (pv : (Nat × Nat) × Nat),
      L.Pairwise (fun a b => a.1 ≠ b.1) → pv ∈ L → Shaped n g →
      sr + pv.1.1 < n → sc + pv.1.2 < n →
      cellOf (L.foldl (fun acc qv => setCell acc (sr + qv.1.1) (sc + qv.1.2) qv.2) g)
        (sr + pv.1.1) (sc + pv.1.2) = some pv.2 := by
  intro L
  induction L with
  | nil => intro g pv _ hmem; exact absurd hmem (List.not_mem_nil pv)
  | cons qv rest ih =>
    intro g pv hpw hmem hsh hr hc
    obtain ⟨hhead, htail⟩ := List.pairwise_cons.1 hpw
    rw [List.foldl_cons]
    rcases List.mem_cons.1 hmem with rfl | hm
    · obtain ⟨w, hw⟩ := shaped_cellOf hsh hr hc
      rw [foldl_setCell_untouched]
      · exact cellOf_setCell_self hw
      · intro rv hrv hcontra
        apply hhead rv hrv
        obtain ⟨h1, h2⟩ := hcontra
        have e1 : pv.1.1 = rv.1.1 := by omega
        have e2 : pv.1.2 = rv.1.2 := by omega
        exact Prod.ext e1 e2
    · exact ih _ _ htail hm (shaped_setCell hsh _ _ _) hr hc

/-! ## Diagonal-box filling -/

/-- The rectangle filled by `fillBox(grid, b, b)`. -/
def Region (cfg : GridConfig) (b r c : Nat) : Prop :=
  b ≤ r ∧ r < b + cfg.boxRows ∧ b ≤ c ∧ c < b + cfg.boxCols

/-- All non-zero in-range cells lie in a diagonal region whose start lies
strictly below `bound`. -/
def Confined (cfg : GridConfig) (bound : Nat) (g : Grid) : Prop :=
  ∀ r c v, r < cfg.size → c < cfg.size → cellOf g r c = some v → v ≠ 0 →
    ∃ b, b % cfg.boxCols = 0 ∧ b + cfg.boxCols ≤ bound ∧ Region cfg b r c

theorem diag_region_bounds {cfg : GridConfig} (hv : ValidConfig cfg) {b : Nat}
    (hb : b % cfg.boxCols = 0) (hbsz : b < cfg.size) :
    b + cfg.boxCols ≤ cfg.size ∧ b + cfg.boxRows ≤ cfg.size := by
  obtain ⟨h1, h2, h3, h4⟩ := hv
  have hdm := Nat.div_add_mod b cfg.boxCols
  rw [hb, Nat.add_zero] at hdm
  have hq : b / cfg.boxCols < cfg.boxRows := by
    by_contra hcon
    push_neg at hcon
    have : cfg.boxRows * cfg.boxCols ≤ b / cfg.boxCols * cfg.boxCols :=
      Nat.mul_le_mul_right _ hcon
    rw [Nat.mul_comm (b / cfg.boxCols) cfg.boxCols] at this
    omega
  have hstep : b + cfg.boxCols ≤ cfg.size := by
    have : cfg.boxCols * (b / cfg.boxCols + 1) ≤ cfg.boxCols * cfg.boxRows :=
      Nat.mul_le_mul_left _ (by omega)
    rw [Nat.mul_add, Nat.mul_one] at this
    rw [Nat.mul_comm cfg.boxCols cfg.boxRows] at this
    omega
  exact ⟨hstep, by omega⟩

theorem boxStartCol_of_region {cfg : GridConfig} (hbc : 0 < cfg.boxCols) {b c : Nat}
    (hb : b % cfg.boxCols = 0) (h1 : b ≤ c) (h2 : c < b + cfg.boxCols) :
    boxStartCol cfg c = b := by
  have hdm := Nat.div_add_mod b cfg.boxCols
  rw [hb, Nat.add_zero] at hdm
  unfold boxStartCol
  have hc : c = cfg.boxCols * (b / cfg.boxCols) + (c - b) := by omega
  rw [hc, Nat.mul_add_div hbc,
    Nat.div_eq_of_lt (show c - b < cfg.boxCols from by omega), Nat.add_zero]
  rw [Nat.mul_comm (b / cfg.boxCols) cfg.boxCols]
  exact hdm

theorem fillBox_spec (cfg : GridConfig) (hv : ValidConfig cfg) {g : Grid} {b : Nat}
    (s : RNG) (hsh : Shaped cfg.size g) (hb : b % cfg.boxCols = 0)
    (hbsz : b < cfg.size) :
    Shaped cfg.size (fillBox cfg g b b s).1 ∧
    (∀ r c, ¬ Region cfg b r c →
      cellOf (fillBox cfg g b b s).1 r c = cellOf g r c) ∧
    (∀ r c, Region cfg b r c →
      ∃ v, cellOf (fillBox cfg g b b s).1 r c = some v ∧ 1 ≤ v ∧ v ≤ cfg.size) ∧
    (∀ r1 c1 r2 c2, Region cfg b r1 c1 → Region cfg b r2 c2 →
      (r1, c1) ≠ (r2, c2) →
      cellOf (fillBox cfg g b b s).1 r1 c1 ≠
        cellOf (fillBox cfg g b b s).1 r2 c2) := by
  obtain ⟨hbc1, hbr1⟩ := diag_region_bounds hv hb hbsz
  have hfb : (fillBox cfg g b b s).1 =
      ((boxOffsets cfg).zip ((shuffleArray (List.range' 1 cfg.size) s).1)).foldl
        (fun acc pv => setCell acc (b + pv.1.1) (b + pv.1.2) pv.2) g := rfl
  have hperm := shuffleArray_perm (List.range' 1 cfg.size) s
  have hnslen : ((shuffleArray (List.range' 1 cfg.size) s).1).length = cfg.size := by
    rw [hperm.length_eq, List.length_range']
  have hnsnodup : ((shuffleArray (List.range' 1 cfg.size) s).1).Nodup :=
    List.Perm.nodup hperm.symm (List.nodup_range' _ _)
  have hmemns : ∀ v ∈ (shuffleArray (List.range' 1 cfg.size) s).1,
      1 ≤ v ∧ v ≤ cfg.size := fun v hmem => mem_range_one.1 (hperm.mem_iff.1 hmem)
  have hofflen : (boxOffsets cfg).length =
      ((shuffleArray (List.range' 1 cfg.size) s).1).length := by
    rw [length_boxOffsets, hnslen, hv.2.2.2]
  have hpw := zip_pairwise_of_nodup (nodup_boxOffsets cfg) hnsnodup
  have hpwfst := hpw.imp (fun h => h.1)
  have huntouched : ∀ r2 c2, ¬ Region cfg b r2 c2 →
      cellOf (fillBox cfg g b b s).1 r2 c2 = cellOf g r2 c2 := by
    intro r2 c2 hreg
    rw [hfb]
    apply foldl_setCell_untouched
    intro pv hpv hcontra
    obtain ⟨hx1, hx2⟩ := hcontra
    obtain ⟨hoff, -⟩ := List.of_mem_zip hpv
    obtain ⟨ho1, ho2⟩ := mem_boxOffsets.1 hoff
    exact hreg ⟨by omega, by omega, by omega, by omega⟩
  have hregion : ∀ r c, Region cfg b r c →
      ∃ v, cellOf (fillBox cfg g b b s).1 r c = some v ∧
        ((r - b, c - b), v) ∈
          (boxOffsets cfg).zip ((shuffleArray (List.range' 1 cfg.size) s).1) := by
    intro r c hreg
    obtain ⟨hr1, hr2, hc1, hc2⟩ := hreg
    have hoffmem : ((r - b, c - b) : Nat × Nat) ∈ boxOffsets cfg :=
      mem_boxOffsets.2 ⟨by omega, by omega⟩
    obtain ⟨v, hvmem⟩ := mem_zip_of_mem_left hoffmem hofflen
    refine ⟨v, ?_, hvmem⟩
    have hhit := foldl_setCell_hit b b
      ((boxOffsets cfg).zip ((shuffleArray (List.range' 1 cfg.size) s).1)) g
      ((r - b, c - b), v) hpwfst hvmem hsh
      (show b + (r - b) < cfg.size from by omega)
      (show b + (c - b) < cfg.size from by omega)
    rw [hfb]
    have her : b + ((r - b, c - b), v).1.1 = r :=
      show b + (r - b) = r from by omega
    have hec : b + ((r - b, c - b), v).1.2 = c :=
      show b + (c - b) = c from by omega
    rw [her, hec] at hhit
    exact hhit
  refine ⟨?_, huntouched, ?_, ?_⟩
  · rw [hfb]
    exact foldl_setCell_shaped b b _ g hsh
  · intro r c hreg
    obtain ⟨v, hcell, hvmem⟩ := hregion r c hreg
    obtain ⟨-, hvns⟩ := List.of_mem_zip hvmem
    obtain ⟨hv1, hv2⟩ := hmemns v hvns
    exact ⟨v, hcell, hv1, hv2⟩
  · intro r1 c1 r2 c2 hreg1 hreg2 hne
    obtain ⟨v1, hcell1, hvmem1⟩ := hregion r1 c1 hreg1
    obtain ⟨v2, hcell2, hvmem2⟩ := hregion r2 c2 hreg2
    rw [hcell1, hcell2]
    intro hcontra
    have hveq : v1 = v2 := Option.some.inj hcontra
    have hoffne : ((r1 - b, c1 - b) : Nat × Nat) ≠ (r2 - b, c2 - b) := by
      intro h
      rw [Prod.mk.injEq] at h
      apply hne
      rw [Prod.mk.injEq]
      obtain ⟨ha1, -, hb1, -⟩ := hreg1
      obtain ⟨ha2, -, hb2, -⟩ := hreg2
      omega
    have hpvne : (((r1 - b, c1 - b), v1) : (Nat × Nat) × Nat) ≠
        ((r2 - b, c2 - b), v2) := by
      intro h
      exact hoffne (congrArg Prod.fst h)
    have hsymm : Symmetric (fun (a b : (Nat × Nat) × Nat) => a.1 ≠ b.1 ∧ a.2 ≠ b.2) :=
      fun a b h => ⟨h.1.symm, h.2.symm⟩
    have := (List.Pairwise.forall hsymm hpw) hvmem1 hvmem2 hpvne
    exact this.2 hveq

/-- One `fillBox(grid, b, b)` step of the diagonal fill preserves shape,
consistency and the value range, and extends confinement to `b + boxCols`. -/
theorem fillBox_diag_step {cfg : GridConfig} (hv : ValidConfig cfg) {g : Grid} {b : Nat}
    (s : RNG) (hsh : Shaped cfg.size g) (hcons : Consistent cfg g)
    (hvl : ValsLe cfg g) (hconf : Confined cfg b g)
    (hb : b % cfg.boxCols = 0) (hbsz : b < cfg.size) :
    Shaped cfg.size (fillBox cfg g b b s).1 ∧
    Consistent cfg (fillBox cfg g b b s).1 ∧
    ValsLe cfg (fillBox cfg g b b s).1 ∧
    Confined cfg (b + cfg.boxCols) (fillBox cfg g b b s).1 := by
  obtain ⟨hbc1, hbr1⟩ := diag_region_bounds hv hb hbsz
  obtain ⟨hshf, hunt, hreg, hdist⟩ := fillBox_spec cfg hv s hsh hb hbsz
  obtain ⟨hbr0, hbc0, hrc, hsz⟩ := hv
  have hmixed : ∀ r1 c1 r2 c2 v, Region cfg b r1 c1 → ¬ Region cfg b r2 c2 →
      r2 < cfg.size → c2 < cfg.size → v ≠ 0 →
      cellOf (fillBox cfg g b b s).1 r2 c2 = some v →
      ¬(r1 = r2 ∨ c1 = c2 ∨
        (boxStartRow cfg r1 = boxStartRow cfg r2 ∧
          boxStartCol cfg c1 = boxStartCol cfg c2)) := by
    intro r1 c1 r2 c2 v hin hout hr2 hc2 hv0 hcell
    rw [hunt r2 c2 hout] at hcell
    obtain ⟨b2, hb2m, hb2le, hb2r⟩ := hconf r2 c2 v hr2 hc2 hcell hv0
    obtain ⟨hi1, hi2, hi3, hi4⟩ := hin
    obtain ⟨hj1, hj2, hj3, hj4⟩ := hb2r
    rintro (h | h | ⟨-, h⟩)
    · omega
    · omega
    · rw [boxStartCol_of_region hbc0 hb hi3 hi4,
        boxStartCol_of_region hbc0 hb2m hj3 hj4] at h
      omega
  refine ⟨hshf, ?_, ?_, ?_⟩
  · intro r1 c1 r2 c2 v h1 h2 h3 h4 hne hv0 hc1 hc2
    by_cases hin1 : Region cfg b r1 c1 <;> by_cases hin2 : Region cfg b r2 c2
    · exact absurd (hc1.trans hc2.symm) (hdist r1 c1 r2 c2 hin1 hin2 hne)
    · exact hmixed r1 c1 r2 c2 v hin1 hin2 h3 h4 hv0 hc2
    · intro hclash
      exact hmixed r2 c2 r1 c1 v hin2 hin1 h1 h2 hv0 hc1
        (consistent_symm_clause hclash)
    · rw [hunt r1 c1 hin1] at hc1
      rw [hunt r2 c2 hin2] at hc2
      exact hcons r1 c1 r2 c2 v h1 h2 h3 h4 hne hv0 hc1 hc2
  · intro r c v hr hc hcell
    by_cases hin : Region cfg b r c
    · obtain ⟨w, hw, -, hwle⟩ := hreg r c hin
      have hvw : v = w := Option.some.inj (hcell.symm.trans hw)
      omega
    · rw [hunt r c hin] at hcell
      exact hvl r c v hr hc hcell
  · intro r c v hr hc hcell hv0
    by_cases hin : Region cfg b r c
    · exact ⟨b, hb, Nat.le_refl _, hin⟩
    · rw [hunt r c hin] at hcell
      obtain ⟨b2, hb2m, hb2le, hb2r⟩ := hconf r c v hr hc hcell hv0
      exact ⟨b2, hb2m, by omega, hb2r⟩

/-- The whole diagonal pass keeps the grid shaped, consistent and
in-range, starting from any confined grid. -/
theorem fillDiag_fold {cfg : GridConfig} (hv : ValidConfig cfg) :
    ∀ n start g s, cfg.size - start ≤ n → start % cfg.boxCols = 0 →
      Shaped cfg.size g → Consistent cfg g → ValsLe cfg g → Confined cfg start g →
      Shaped cfg.size ((upBy start cfg.size cfg.boxCols).foldl
        (fun acc b => fillBox cfg acc.1 b b acc.2) (g, s)).1 ∧
      Consistent cfg ((upBy start cfg.size cfg.boxCols).foldl
        (fun acc b => fillBox cfg acc.1 b b acc.2) (g, s)).1 ∧
      ValsLe cfg ((upBy start cfg.size cfg.boxCols).foldl
        (fun acc b => fillBox cfg acc.1 b b acc.2) (g, s)).1 := by
  intro n
  induction n with
  | zero =>
    intro start g s hle hm hsh hcons hvl hconf
    have hns : ¬ (start < cfg.size ∧ 0 < cfg.boxCols) := by omega
    rw [upBy_eq, if_neg hns]
    exact ⟨hsh, hcons, hvl⟩
  | succ n ih =>
    intro start g s hle hm hsh hcons hvl hconf
    by_cases hlt : start < cfg.size ∧ 0 < cfg.boxCols
    · rw [upBy_eq, if_pos hlt]
      obtain ⟨hsh2, hcons2, hvl2, hconf2⟩ :=
        fillBox_diag_step hv s hsh hcons hvl hconf hm hlt.1
      have hstep := ih (start + cfg.boxCols) (fillBox cfg g start start s).1
        (fillBox cfg g start start s).2 (by omega)
        (by rw [Nat.add_mod_right]; exact hm) hsh2 hcons2 hvl2 hconf2
      simpa using hstep
    · rw [upBy_eq, if_neg hlt]
      exact ⟨hsh, hcons, hvl⟩

/-- The empty grid is (vacuously) confined below any diagonal start. -/
theorem confined_createEmptyGrid (cfg : GridConfig) (bound : Nat) :
    Confined cfg bound (createEmptyGrid cfg) := by
  intro r c v _ _ hcell hv0
  exact absurd (cellOf_createEmptyGrid hcell) hv0

/-- `fillDiagonalBoxes` on the empty grid yields a shaped, consistent,
in-range grid. -/
theorem fillDiagonalBoxes_inv (cfg : GridConfig) (hv : ValidConfig cfg) (s : RNG) :
    SearchInv cfg (fillDiagonalBoxes cfg (createEmptyGrid cfg) s).1 := by
  have h := fillDiag_fold hv cfg.size 0 (createEmptyGrid cfg) s (by omega)
    (Nat.zero_mod _) (shaped_createEmptyGrid cfg) (consistent_createEmptyGrid cfg)
    (valsLe_createEmptyGrid cfg) (confined_createEmptyGrid cfg 0)
  exact ⟨h.1, h.2.1, h.2.2⟩

/-- `countSolutionsHelper` on a completely filled grid reports one
solution (any positive fuel, any limit). -/
theorem countF_full (cfg : GridConfig) {g : Grid} {fuel limit : Nat}
    (h1 : 0 < fuel) (hfull : findEmptyCell cfg g = none) :
    (countF cfg fuel g limit).1 = 1 := by
  cases fuel with
  | zero => omega
  | succ fuel => rw [countF, hfull]

/-- The carve loop of `createPuzzle` keeps the puzzle shaped, agreeing
with the solution off its zeroes, with at most `target` empty cells
(given at most `removed` on entry), and keeps the uniqueness gate. -/
theorem removeLoop_inv (cfg : GridConfig) (cFuel target : Nat) {solution : Grid} :
    ∀ (ps : List (Nat × Nat)) (puzzle : Grid) (removed : Nat),
      (∀ p ∈ ps, p.1 < cfg.size ∧ p.2 < cfg.size) →
      Shaped cfg.size puzzle →
      Agrees puzzle solution →
      countEmptyCells cfg puzzle ≤ removed →
      removed ≤ target →
      (countSolutions cfg cFuel puzzle 2 = 1 ∨ puzzle = solution) →
      Shaped cfg.size (removeLoop cfg cFuel target puzzle ps removed) ∧
      Agrees (removeLoop cfg cFuel target puzzle ps removed) solution ∧
      countEmptyCells cfg (removeLoop cfg cFuel target puzzle ps removed) ≤ target ∧
      (countSolutions cfg cFuel (removeLoop cfg cFuel target puzzle ps removed) 2 = 1 ∨
        removeLoop cfg cFuel target puzzle ps removed = solution) := by
  intro ps
  induction ps with
  | nil =>
    intro puzzle removed _ hsh hag hce hrt hq
    exact ⟨hsh, hag, show countEmptyCells cfg puzzle ≤ target by omega, hq⟩
  | cons p rest ih =>
    obtain ⟨r, c⟩ := p
    intro puzzle removed hps hsh hag hce hrt hq
    rw [removeLoop]
    by_cases hstop : target ≤ removed
    · rw [if_pos hstop]
      exact ⟨hsh, hag, by omega, hq⟩
    · rw [if_neg hstop]
      obtain ⟨hr, hc⟩ := hps (r, c) (List.mem_cons_self _ _)
      obtain ⟨w, hw⟩ := shaped_cellOf hsh hr hc
      have hcell0 : cellOf (setCell puzzle r c 0) r c = some 0 :=
        cellOf_setCell_self hw
      have hrest : ∀ p ∈ rest, p.1 < cfg.size ∧ p.2 < cfg.size :=
        fun p hp => hps p (List.mem_cons_of_mem _ hp)
      by_cases hgate : countSolutions cfg cFuel (setCell puzzle r c 0) 2 = 1
      · rw [if_pos hgate]
        apply ih (setCell puzzle r c 0) (removed + 1) hrest
          (shaped_setCell hsh r c 0) ?_ ?_ (by omega) (Or.inl hgate)
        · intro r2 c2
          by_cases heq : r2 = r ∧ c2 = c
          · obtain ⟨rfl, rfl⟩ := heq
            exact Or.inr hcell0
          · rw [cellOf_setCell_ne heq]
            exact hag r2 c2
        · have := @countEmptyCells_setCell_zero_le cfg puzzle r c
          omega
      · rw [if_neg hgate]
        have hbackup : cellD puzzle r c = w := by
          unfold cellD; rw [hw]; rfl
        rw [hbackup, setCell_restore hw]
        exact ih puzzle removed hrest hsh hag hce (by omega) hq

/-- One unfolding of the `generate` attempt loop. -/
theorem generateLoop_succ (cfg : GridConfig) (gFuel cFuel : Nat) (d : Difficulty)
    (attempts : Nat) (s : RNG) :
    generateLoop cfg gFuel cFuel d (attempts + 1) s =
      (if (genF cfg gFuel (fillDiagonalBoxes cfg (createEmptyGrid cfg) s).1
            (fillDiagonalBoxes cfg (createEmptyGrid cfg) s).2).1 &&
          !hasZeros (genF cfg gFuel (fillDiagonalBoxes cfg (createEmptyGrid cfg) s).1
            (fillDiagonalBoxes cfg (createEmptyGrid cfg) s).2).2.1 then
        some ⟨(createPuzzle cfg cFuel
            (genF cfg gFuel (fillDiagonalBoxes cfg (createEmptyGrid cfg) s).1
              (fillDiagonalBoxes cfg (createEmptyGrid cfg) s).2).2.1 d
            (genF cfg gFuel (fillDiagonalBoxes cfg (createEmptyGrid cfg) s).1
              (fillDiagonalBoxes cfg (createEmptyGrid cfg) s).2).2.2).1,
          (genF cfg gFuel (fillDiagonalBoxes cfg (createEmptyGrid cfg) s).1
            (fillDiagonalBoxes cfg (createEmptyGrid cfg) s).2).2.1, d, cfg.size⟩
      else generateLoop cfg gFuel cFuel d attempts
        (genF cfg gFuel (fillDiagonalBoxes cfg (createEmptyGrid cfg) s).1
          (fillDiagonalBoxes cfg (createEmptyGrid cfg) s).2).2.2) := rfl

/-- Every puzzle the attempt loop returns satisfies the generator
contract: full, consistent, in-range solution; shaped puzzle agreeing
with the solution off its zeroes; at most the difficulty's removal
target of empty cells; and a unique solution count. -/
theorem generateLoop_spec (cfg : GridConfig) (hv : ValidConfig cfg)
    {gFuel cFuel : Nat} (hcf : 0 < cFuel) (d : Difficulty) :
    ∀ (attempts : Nat) (s : RNG) (p : GeneratedPuzzle),
      generateLoop cfg gFuel cFuel d attempts s = some p →
      Shaped cfg.size p.solution ∧ FullI cfg p.solution ∧
      Consistent cfg p.solution ∧ ValsLe cfg p.solution ∧
      hasZeros p.solution = false ∧
      Shaped cfg.size p.puzzle ∧ Agrees p.puzzle p.solution ∧
      countEmptyCells cfg p.puzzle ≤ getCellsToRemove cfg d ∧
      countSolutions cfg cFuel p.puzzle 2 = 1 ∧
      p.difficulty = d ∧ p.gridSize = cfg.size := by
  intro attempts
  induction attempts with
  | zero => intro s p h; exact Option.noConfusion h
  | succ attempts ih =>
    intro s p h
    rw [generateLoop_succ] at h
    have hS := genF_sound cfg hv gFuel
      (fillDiagonalBoxes cfg (createEmptyGrid cfg) s).1
      (fillDiagonalBoxes cfg (createEmptyGrid cfg) s).2
      (fillDiagonalBoxes_inv cfg hv s)
    set f2 := genF cfg gFuel (fillDiagonalBoxes cfg (createEmptyGrid cfg) s).1
      (fillDiagonalBoxes cfg (createEmptyGrid cfg) s).2 with hf2
    by_cases hB : (f2.1 && !hasZeros f2.2.1) = true
    · rw [if_pos hB] at h
      rw [Bool.and_eq_true] at hB
      obtain ⟨hgt, hnz⟩ := hB
      rw [Bool.not_eq_true'] at hnz
      obtain ⟨hInv2, hFull2⟩ := hS hgt
      obtain ⟨hshS, hconsS, hvlS⟩ := hInv2
      have hp := (Option.some.inj h).symm
      subst hp
      have hnozero : ∀ r c, cellOf f2.2.1 r c ≠ some 0 := hasZeros_eq_false hnz
      have hcp : (createPuzzle cfg cFuel f2.2.1 d f2.2.2).1 =
          removeLoop cfg cFuel (getCellsToRemove cfg d) f2.2.1
            (shuffleArray (allPositions cfg) f2.2.2).1 0 := by
        show removeLoop cfg cFuel (getCellsToRemove cfg d) (copyGrid f2.2.1)
          (shuffleArray (allPositions cfg) f2.2.2).1 0 = _
        rw [copyGrid_eq]
      have hpos : ∀ q ∈ (shuffleArray (allPositions cfg) f2.2.2).1,
          q.1 < cfg.size ∧ q.2 < cfg.size :=
        fun q hq => mem_allPositions.1 ((shuffleArray_perm _ f2.2.2).mem_iff.1 hq)
      have hrl := removeLoop_inv cfg cFuel (getCellsToRemove cfg d)
        (shuffleArray (allPositions cfg) f2.2.2).1 f2.2.1 0 hpos hshS
        (fun r c => Or.inl rfl)
        (Nat.le_of_eq (countEmptyCells_eq_zero (fun r c _ _ => hnozero r c)))
        (Nat.zero_le _) (Or.inr rfl)
      obtain ⟨hshP, hagP, hceP, hqP⟩ := hrl
      have hcount : countSolutions cfg cFuel
          (removeLoop cfg cFuel (getCellsToRemove cfg d) f2.2.1
            (shuffleArray (allPositions cfg) f2.2.2).1 0) 2 = 1 := by
        cases hqP with
        | inl hone => exact hone
        | inr heq =>
          rw [heq]
          unfold countSolutions
          rw [copyGrid_eq]
          exact countF_full cfg hcf
            (findEmptyCell_eq_none_of (fun r c _ _ => hnozero r c))
      refine ⟨hshS, hFull2, hconsS, hvlS, hnz, ?_, ?_, ?_, ?_, rfl, rfl⟩
      · show Shaped cfg.size (createPuzzle cfg cFuel f2.2.1 d f2.2.2).1
        rw [hcp]; exact hshP
      · show Agrees (createPuzzle cfg cFuel f2.2.1 d f2.2.2).1 f2.2.1
        rw [hcp]; exact hagP
      · show countEmptyCells cfg (createPuzzle cfg cFuel f2.2.1 d f2.2.2).1 ≤
          getCellsToRemove cfg d
        rw [hcp]; exact hceP
      · show countSolutions cfg cFuel (createPuzzle cfg cFuel f2.2.1 d f2.2.2).1 2 = 1
        rw [hcp]; exact hcount
    · rw [if_neg hB] at h
      exact ih f2.2.2 p h

/-! ## The claims C1 and C2 -/

/-- The removal table exactly as the specification words it, keyed by the
requested grid size (spec-worded comparator for `getCellsToRemove`). -/
def specCellsToRemove (n : Nat) (d : Difficulty) : Nat :=
  if n = 4 then match d with | .easy => 7 | .medium => 8 | .hard => 10
  else if n = 6 then match d with | .easy => 18 | .medium => 24 | .hard => 26
  else if n = 9 then match d with | .easy => 40 | .medium => 50 | .hard => 62
  else if n = 12 then match d with | .easy => 70 | .medium => 90 | .hard => 110
  else 0

/-- Every configuration the factory hands out is valid, has the requested
size, and its removal table agrees with the specification's table. -/
theorem createGrid_sound {n : Nat} {cfg : GridConfig} (h : createGrid n = some cfg) :
    ValidConfig cfg ∧ cfg.size = n ∧
    ∀ d, getCellsToRemove cfg d = specCellsToRemove n d := by
  unfold createGrid at h
  by_cases h4 : n = 4
  · subst h4; rw [if_pos rfl] at h; obtain rfl := Option.some.inj h
    exact ⟨⟨by decide, by decide, by decide, by decide⟩, rfl,
      fun d => by cases d <;> rfl⟩
  · rw [if_neg h4] at h
    by_cases h6 : n = 6
    · subst h6; rw [if_pos rfl] at h; obtain rfl := Option.some.inj h
      exact ⟨⟨by decide, by decide, by decide, by decide⟩, rfl,
        fun d => by cases d <;> rfl⟩
    · rw [if_neg h6] at h
      by_cases h9 : n = 9
      · subst h9; rw [if_pos rfl] at h; obtain rfl := Option.some.inj h
        exact ⟨⟨by decide, by decide, by decide, by decide⟩, rfl,
          fun d => by cases d <;> rfl⟩
      · rw [if_neg h9] at h
        by_cases h12 : n = 12
        · subst h12; rw [if_pos rfl] at h; obtain rfl := Option.some.inj h
          exact ⟨⟨by decide, by decide, by decide, by decide⟩, rfl,
            fun d => by cases d <;> rfl⟩
        · rw [if_neg h12] at h
          exact Option.noConfusion h

/-- C1: for every factory grid size (4, 6, 9, 12) and every difficulty,
when `generate(difficulty)` returns a `GeneratedPuzzle p`, the solution
contains no zero and passes `isValidGrid`; the puzzle agrees with the
solution at every non-zero cell and has at most the table's
`cellsToRemove(difficulty, size)` zeroed positions ("or fewer, if removal
saturates"); and `countSolutions(puzzle, 2) = 1`. -/
theorem sudoku_c1_generate_contract {n : Nat} {cfg : GridConfig}
    (hcfg : createGrid n = some cfg) (d : Difficulty) {gFuel cFuel : Nat}
    (hcf : 0 < cFuel) (s : RNG) {p : GeneratedPuzzle}
    (hgen : generate cfg gFuel cFuel d s = some p) :
    hasZeros p.solution = false ∧
    isValidGrid cfg p.solution = true ∧
    (∀ r c v, cellOf p.puzzle r c = some v → v ≠ 0 →
      cellOf p.solution r c = some v) ∧
    countEmptyCells cfg p.puzzle ≤ specCellsToRemove n d ∧
    countSolutions cfg cFuel p.puzzle 2 = 1 ∧
    p.difficulty = d ∧ p.gridSize = n := by
  obtain ⟨hv, hsize, htab⟩ := createGrid_sound hcfg
  obtain ⟨hshS, hFull, hcons, hvl, hnz, hshP, hag, hce, hcount, hd, hgs⟩ :=
    generateLoop_spec cfg hv hcf d 100 s p hgen
  refine ⟨hnz, isValidGrid_of_consistent hv hshS hFull hcons, ?_, ?_,
    hcount, hd, by omega⟩
  · intro r c v hcell hv0
    cases hag r c with
    | inl he => rw [← he]; exact hcell
    | inr hz => rw [hcell] at hz; exact absurd (Option.some.inj hz) hv0
  · rw [← htab d]; exact hce

/-- C2: for every puzzle produced by `generate`, `solve(copyGrid(puzzle))`
returns true and the grid it produces is exactly the original solution
(given enough solver fuel for the finitely many empty cells). -/
theorem sudoku_c2_solve_roundtrip {n : Nat} {cfg : GridConfig}
    (hcfg : createGrid n = some cfg) (d : Difficulty) {gFuel cFuel sFuel : Nat}
    (hcf : cfg.size * cfg.size < cFuel) (hsf : cfg.size * cfg.size < sFuel)
    (s : RNG) {p : GeneratedPuzzle}
    (hgen : generate cfg gFuel cFuel d s = some p) :
    solveF cfg sFuel (copyGrid p.puzzle) = (true, p.solution) := by
  obtain ⟨hv, hsize, htab⟩ := createGrid_sound hcfg
  obtain ⟨hshS, hFull, hcons, hvl, hnz, hshP, hag, hce, hcount, hd, hgs⟩ :=
    generateLoop_spec cfg hv (by omega) d 100 s p hgen
  have hsol : Solves cfg p.puzzle p.solution := by
    refine ⟨hshS, hFull, hcons, hvl, ?_⟩
    intro r c v _ _ hcell hv0
    cases hag r c with
    | inl he => rw [← he]; exact hcell
    | inr hz => rw [hcell] at hz; exact absurd (Option.some.inj hz) hv0
  have hle := @countEmptyCells_le cfg p.puzzle
  have hcount2 : (countF cfg cFuel p.puzzle 2).1 = 1 := by
    unfold countSolutions at hcount
    rw [copyGrid_eq] at hcount
    exact hcount
  rw [copyGrid_eq]
  exact solve_unique cfg hv hsol hshP (by omega) (by omega) hcount2

/-- The puzzle `generate('easy')` produces on the 4×4 configuration under
the all-zeros draw stream. -/
def c4puzzle : GeneratedPuzzle :=
  ⟨[[2,0,0,0],[0,0,3,0],[0,4,2,3],[3,2,4,1]],
   [[2,3,1,4],[4,1,3,2],[1,4,2,3],[3,2,4,1]], .easy, 4⟩

theorem sudoku_c1_generate_contract_witness :
    createGrid 4 = some c4cfg ∧ 0 < 20 ∧
    generate c4cfg 20 20 Difficulty.easy zeroStream = some c4puzzle ∧
    (hasZeros c4puzzle.solution = false ∧
     isValidGrid c4cfg c4puzzle.solution = true ∧
     (∀ r c v, cellOf c4puzzle.puzzle r c = some v → v ≠ 0 →
       cellOf c4puzzle.solution r c = some v) ∧
     countEmptyCells c4cfg c4puzzle.puzzle ≤ specCellsToRemove 4 Difficulty.easy ∧
     countSolutions c4cfg 20 c4puzzle.puzzle 2 = 1 ∧
     c4puzzle.difficulty = Difficulty.easy ∧ c4puzzle.gridSize = 4) :=
  ⟨rfl, by decide, rfl,
    @sudoku_c1_generate_contract 4 c4cfg rfl Difficulty.easy 20 20 (by decide)
      zeroStream c4puzzle rfl⟩

theorem sudoku_c2_solve_roundtrip_witness :
    createGrid 4 = some c4cfg ∧ c4cfg.size * c4cfg.size < 20 ∧
    generate c4cfg 20 20 Difficulty.easy zeroStream = some c4puzzle ∧
    solveF c4cfg 20 (copyGrid c4puzzle.puzzle) = (true, c4puzzle.solution) :=
  ⟨rfl, by decide, rfl,
    @sudoku_c2_solve_roundtrip 4 c4cfg rfl Difficulty.easy 20 20 20 (by decide)
      (by decide) zeroStream c4puzzle rfl⟩
